import Mathlib

/-!
Verification development for the ARVIDA C++ preprocessor core
(`arvidapp/__init__.py` and `arvidapp/generator.py`).

Python strings are embedded as `List Char` (`Str`), Python integers as
`Nat` where they are known non-negative (token counts, ids, weights).
Fallible code (Python exceptions / asserts) is embedded as `Option`.
All definitions are executable.
-/

set_option maxHeartbeats 1000000

abbrev Str := List Char

/-- Decimal digits of a natural number, mirroring Python `str(int)`
for non-negative values. -/
def natDigits (n : Nat) : Str :=
  Nat.toDigits 10 n

/-- `"0123".isDigit`-style test used by the token scanner (`\d`). -/
def isDigitCh (c : Char) : Bool :=
  '0' ≤ c && c ≤ '9'

/-- Hexadecimal digit test (`[0-9A-Fa-f]`). -/
def isHexCh (c : Char) : Bool :=
  isDigitCh c || ('a' ≤ c && c ≤ 'f') || ('A' ≤ c && c ≤ 'F')

/-- Python `\s` whitespace class (space, tab, newline, CR, VT, FF). -/
def isSpaceCh (c : Char) : Bool :=
  c = ' ' || c = '\t' || c = '\n' || c = '\x0d' || c = '\x0b' || c = '\x0c'

/- ==================================================================
   Component: Type-Spelling Parser (`__init__.py` lines 163-255)
   ================================================================== -/

/-- One token produced by `TOKEN_SCANNER`: an integer literal, a
punctuation character (`<`, `>`, `,`), or a "rest" run. -/
inductive Tok where
  | tnum (n : Nat)
  | tpunct (c : Char)
  | tname (s : Str)
deriving Repr, DecidableEq

/-- Does the input start with a hexadecimal literal `0[xX][0-9A-Fa-f]+`? -/
def isHexStart : Str → Bool
  | '0' :: x :: d :: _ => (x = 'x' || x = 'X') && isHexCh d
  | _ => false

/-- Greedy match of the "rest" alternative `(?:::|[^<>:,])*`:
repeatedly consume a `::` pair or a single character that is none of
`<`, `>`, `:`, `,`.  Returns the run and the remaining input. -/
def restRun : Str → Str × Str
  | [] => ([], [])
  | ':' :: ':' :: t =>
    let (r, rem) := restRun t
    (':' :: ':' :: r, rem)
  | c :: t =>
    if c = '<' || c = '>' || c = ':' || c = ',' then
      ([], c :: t)
    else
      let (r, rem) := restRun t
      (c :: r, rem)

/-- Value of a decimal digit string. -/
def decValue (s : Str) : Nat :=
  s.foldl (fun acc c => acc * 10 + (c.toNat - '0'.toNat)) 0

/-- `tokenize_type_spelling` (`__init__.py` lines 172-186): scan the
spelling with `TOKEN_SCANNER`, skipping whitespace, classifying
integer literals, punctuation and "rest" runs.  An empty "rest" match
(a lone `:`) consumes one character without producing a token.
The hexadecimal branch calls Python `int("0x...")` with no base
argument, which raises `ValueError`; it is embedded as `none`. -/
def tokenizeAux : Nat → Str → Option (List Tok)
  | 0, _ => none
  | _, [] => some []
  | fuel + 1, c :: t =>
    if isSpaceCh c then
      -- whitespace alternative: greedy run, no token
      tokenizeAux fuel (List.dropWhile isSpaceCh (c :: t))
    else if isHexStart (c :: t) then
      -- hexadecimal alternative: `int("0x..")` raises ValueError
      none
    else if isDigitCh c then
      let run := List.takeWhile isDigitCh (c :: t)
      let rest := List.dropWhile isDigitCh (c :: t)
      (tokenizeAux fuel rest).map (Tok.tnum (decValue run) :: ·)
    else if c = '<' || c = '>' || c = ',' then
      (tokenizeAux fuel t).map (Tok.tpunct c :: ·)
    else
      let (run, rem) := restRun (c :: t)
      match run with
      | [] => tokenizeAux fuel t       -- empty match: scanner advances one char
      | run => (tokenizeAux fuel rem).map (Tok.tname run :: ·)

def tokenize_type_spelling (s : Str) : Option (List Tok) :=
  tokenizeAux (s.length + 1) s

/-- `TypeSpellingInfo` tree (`__init__.py` lines 189-214).  A node
carries its head token and an argument list; `hasArgs = false`
corresponds to `template_arguments is None` in the source
(the argument list is then empty).  A `lit` is an integer template
argument stored directly (not wrapped in a node). -/
inductive TSpell where
  | lit (n : Nat)
  | node (name : Tok) (hasArgs : Bool) (args : List TSpell)
deriving Repr

/-- Rendering of a head token by Python `str`. -/
def tokStr : Tok → Str
  | .tnum n => natDigits n
  | .tpunct c => [c]
  | .tname s => s

mutual

/-- `TypeSpellingInfo.__str__` (`__init__.py` lines 200-208): head name,
then `<` + `', '.join(args)`; a space is inserted before the closing
`>` when the accumulated text already ends in `>`. -/
def typeSpellingStr : TSpell → Str
  | .lit n => natDigits n
  | .node name hasArgs args =>
    let base := tokStr name
    if hasArgs then
      let r := base ++ '<' :: joinCommaSpace args
      if r.getLast? = some '>' then
        r ++ [' ', '>']
      else
        r ++ ['>']
    else
      base

/-- `', '.join` over rendered template arguments. -/
def joinCommaSpace : List TSpell → Str
  | [] => []
  | [a] => typeSpellingStr a
  | a :: b :: rest => typeSpellingStr a ++ ',' :: ' ' :: joinCommaSpace (b :: rest)

end

/-- A reference held by the parser's `tsi` / `tsi_arg` variables: either
a raw integer value (Python binds the `int` token itself) or the path
of a node inside the tree under construction (child indices from the
root).  Object identity in the Python heap corresponds to the unique
path, since every node is appended exactly once. -/
abbrev TRef := Sum Nat (List Nat)

/-- Fetch the subtree at a path. -/
def tspellGet : TSpell → List Nat → Option TSpell
  | t, [] => some t
  | .lit _, _ :: _ => none
  | .node _ _ args, i :: p =>
    match args.get? i with
    | none => none
    | some c => tspellGet c p

/-- Replace the subtree at a path. -/
def tspellSet : TSpell → List Nat → TSpell → Option TSpell
  | _, [], r => some r
  | .lit _, _ :: _, _ => none
  | .node nm h args, i :: p, r =>
    match args.get? i with
    | none => none
    | some c =>
      (tspellSet c p r).map (fun c' => .node nm h (args.set i c'))

/-- `TypeSpellingInfo.add_argument` (`__init__.py` lines 194-198) applied
at a path: if `template_arguments is None` start the list, else append.
Fails (models `AttributeError`) when the path leads to a literal. -/
def tspellAddArg (t : TSpell) (p : List Nat) (a : TSpell) : Option TSpell := do
  match ← tspellGet t p with
  | .lit _ => none
  | .node nm _ args => tspellSet t p (.node nm true (args ++ [a]))

/-- Argument count at a path (for computing the path of a new child). -/
def tspellArgCount (t : TSpell) (p : List Nat) : Option Nat := do
  match ← tspellGet t p with
  | .lit _ => none
  | .node _ _ args => some args.length

/-- State of the `analyze_type_spelling` loop: the tree built so far,
the `tsi` and `tsi_arg` references, and the node stack. -/
structure AnalyzeState where
  tree : TSpell
  tsi : TRef
  tsiArg : TRef
  stack : List TRef

/-- One iteration of the `analyze_type_spelling` loop
(`__init__.py` lines 231-251).  Python attribute accesses on an `int`
(`AttributeError`) and failed asserts are embedded as `none`. -/
def analyzeStep (st : AnalyzeState) (tk : Tok) : Option AnalyzeState :=
  match tk with
  | .tpunct '<' =>
    -- `assert tsi_arg is not None` always holds; accessing
    -- `tsi.template_arguments` fails when `tsi` is an int
    match st.tsi with
    | .inl _ => none
    | .inr p => do
      let cur ← tspellGet st.tree p
      match cur with
      | .lit _ => none
      | .node nm h args =>
        let tree' ← if h then some st.tree else tspellSet st.tree p (.node nm true args)
        some { tree := tree', tsi := st.tsiArg, tsiArg := st.tsiArg,
               stack := st.stack ++ [Sum.inr p] }
  | .tpunct '>' =>
    match st.stack.getLast? with
    | none => none      -- `assert len(stack) > 0`
    | some r => some { st with tsi := r, stack := st.stack.dropLast }
  | .tpunct _ => some st   -- `,` (the scanner emits no other punctuation)
  | .tnum n =>
    match st.tsi with
    | .inl _ => none     -- `tsi.add_argument` on an int
    | .inr p => do
      let tree' ← tspellAddArg st.tree p (.lit n)
      some { st with tree := tree', tsiArg := .inl n }
  | .tname s =>
    match st.tsi with
    | .inl _ => none
    | .inr p => do
      let k ← tspellArgCount st.tree p
      let tree' ← tspellAddArg st.tree p (.node (.tname s) false [])
      some { st with tree := tree', tsiArg := .inr (p ++ [k]) }

/-- `analyze_type_spelling` (`__init__.py` lines 217-255): tokenize, make
the first token the root node, run the bracket state machine, and
require an empty stack at the end. -/
def analyze_type_spelling (s : Str) : Option TSpell := do
  let tokens ← tokenize_type_spelling s
  match tokens with
  | [] => none
  | t0 :: rest =>
    match t0 with
    | .tpunct _ => none    -- `if tokens[0] in ['<', '>', ',']: return None`
    | _ =>
      let init : AnalyzeState :=
        { tree := .node t0 false [], tsi := .inr [], tsiArg := .inr [], stack := [] }
      let fin ← rest.foldlM analyzeStep init
      if fin.stack.isEmpty then some fin.tree else none

/- ==================================================================
   Component: AST Adapter, `CursorWrapper` (`__init__.py` lines 536-726)
   ================================================================== -/

/-- Kind of a clang type, restricted to the kinds the wrapper
distinguishes. -/
inductive CTypeKind where
  | lvalueReference
  | rvalueReference
  | pointer
  | invalid
  | other
deriving Repr, DecidableEq

/-- A clang `Type`: kind, cv/restrict qualification and the pointee
(present for pointer/reference kinds). -/
inductive CXType where
  | mk (kind : CTypeKind) (constQ volatileQ restrictQ : Bool) (pointee : Option CXType)
deriving Repr

def CXType.kind : CXType → CTypeKind
  | .mk k _ _ _ _ => k

def CXType.constQ : CXType → Bool
  | .mk _ c _ _ _ => c

def CXType.volatileQ : CXType → Bool
  | .mk _ _ v _ _ => v

def CXType.restrictQ : CXType → Bool
  | .mk _ _ _ r _ => r

/-- `Type.get_pointee` yields an invalid type for non-pointer kinds. -/
def CXType.get_pointee : CXType → CXType
  | .mk _ _ _ _ (some p) => p
  | .mk _ _ _ _ none => .mk .invalid false false false none

/-- `CursorWrapper` state relevant to type queries: the wrapped type and
the three qualifier-suppression flags (the cursor handle plays no role
in these operations). -/
structure CursorWrapper where
  ty : CXType
  no_const : Bool := false
  no_volatile : Bool := false
  no_restrict : Bool := false
deriving Repr

/-- `CursorWrapper.is_reference` (`__init__.py` lines 561-562). -/
def CursorWrapper.is_reference (w : CursorWrapper) : Bool :=
  w.ty.kind = .lvalueReference || w.ty.kind = .rvalueReference

/-- `CursorWrapper.is_pointer` (`__init__.py` lines 564-565). -/
def CursorWrapper.is_pointer (w : CursorWrapper) : Bool :=
  w.ty.kind = .pointer

/-- `CursorWrapper.is_const` (`__init__.py` lines 572-573). -/
def CursorWrapper.is_const (w : CursorWrapper) : Bool :=
  !w.no_const && w.ty.constQ

/-- `CursorWrapper.is_volatile` (`__init__.py` lines 575-576). -/
def CursorWrapper.is_volatile (w : CursorWrapper) : Bool :=
  !w.no_volatile && w.ty.volatileQ

/-- `CursorWrapper.is_restrict` (`__init__.py` lines 578-579). -/
def CursorWrapper.is_restrict (w : CursorWrapper) : Bool :=
  !w.no_restrict && w.ty.restrictQ

/-- `CursorWrapper.remove_const` (`__init__.py` lines 581-584). -/
def CursorWrapper.remove_const (w : CursorWrapper) : CursorWrapper :=
  if !w.is_const then w
  else { ty := w.ty, no_const := true }

/-- `CursorWrapper.remove_volatile` (`__init__.py` lines 586-589). -/
def CursorWrapper.remove_volatile (w : CursorWrapper) : CursorWrapper :=
  if !w.is_volatile then w
  else { ty := w.ty, no_volatile := true }

/-- `CursorWrapper.remove_cv` (`__init__.py` lines 596-599).  The source
tests `if not self.is_const() and not not self.is_volatile()` — note
the doubled `not` — and returns `self` unchanged in that case;
otherwise it builds a fresh wrapper with `no_const` and `no_volatile`
set (and `no_restrict` back at its default). -/
def CursorWrapper.remove_cv (w : CursorWrapper) : CursorWrapper :=
  if !w.is_const && !(!w.is_volatile) then w
  else { ty := w.ty, no_const := true, no_volatile := true }

/-- `CursorWrapper.remove_reference` (`__init__.py` lines 601-604):
a fresh wrapper around the pointee for references, else Python `None`. -/
def CursorWrapper.remove_reference (w : CursorWrapper) : Option CursorWrapper :=
  if w.is_reference then some { ty := w.ty.get_pointee }
  else none

/-- `CursorWrapper.value_type` (`__init__.py` lines 625-632): strip an
outer reference; when one was stripped (`if vt:` is always true on a
wrapper object) apply `remove_cv`. -/
def CursorWrapper.value_type (w : CursorWrapper) : CursorWrapper :=
  if w.is_reference then
    match w.remove_reference with
    | some vt => vt.remove_cv
    | none => w     -- unreachable: remove_reference succeeds on references
  else w

/- ==================================================================
   Component: Annotation Decoder, call-argument protocol
   (`__init__.py` lines 781-926)
   ================================================================== -/

/-- `PARAM_END` (`__init__.py` line 32). -/
def PARAM_END : String := "arvida-eop"

/-- `AnnotationParam` (`__init__.py` lines 781-834): a decoded call
argument.  String parameters carry the unescaped literal text; object
and type references carry the resolved full name. -/
inductive AnnotationParam where
  | stringP (s : String)
  | objectP (fullName : String)
  | typeP (fullName : String)
deriving Repr, DecidableEq

def AnnotationParam.is_string : AnnotationParam → Bool
  | .stringP _ => true
  | _ => false

def AnnotationParam.is_object : AnnotationParam → Bool
  | .objectP _ => true
  | _ => false

def AnnotationParam.is_type : AnnotationParam → Bool
  | .typeP _ => true
  | _ => false

def AnnotationParam.is_item (p : AnnotationParam) : Bool :=
  p.is_type || p.is_object

/-- `AnnotationParam.__str__`: the value for strings, the full name for
object/type references. -/
def AnnotationParam.pStr : AnnotationParam → String
  | .stringP s => s
  | .objectP n => n
  | .typeP n => n

/-- `AnnotationParam.is_end_of_parameters` (`__init__.py` lines 809-810). -/
def AnnotationParam.is_end_of_parameters : AnnotationParam → Bool
  | .stringP s => s = PARAM_END
  | _ => false

/-- `Annotation` (`__init__.py` lines 856-872): one named invocation.
`name` is `Option` because the grouping loop may commit a group whose
first parameter was not a string (the Python attribute stays `None`). -/
structure AnnoInv where
  name : Option String
  params : List AnnotationParam
deriving Repr, DecidableEq

/-- `AnnotatedItem` (`__init__.py` lines 875-893). -/
structure AnnotatedItem where
  action : String
  item : Option AnnotationParam
  annos : List AnnoInv
deriving Repr, DecidableEq

def AnnotatedItem.is_global (a : AnnotatedItem) : Bool :=
  a.item.isNone

/-- `AnnotatedItem.full_name` / `.name`: `''` for a global item, else
`str(item)`. -/
def AnnotatedItem.full_name (a : AnnotatedItem) : String :=
  match a.item with
  | none => ""
  | some p => p.pStr

/-- State of the grouping loop in `AnnotatedItem.from_cursor`
(`__init__.py` lines 909-924). -/
structure GroupState where
  first_param : Bool
  anno_name : Option String
  anno_params : List AnnotationParam
  annos : List AnnoInv

/-- One iteration of the grouping loop. -/
def groupStep (st : GroupState) (p : AnnotationParam) : GroupState :=
  if p.is_end_of_parameters then
    { first_param := true, anno_name := none, anno_params := [],
      annos := st.annos ++ [⟨st.anno_name, st.anno_params⟩] }
  else if st.first_param then
    { st with first_param := false,
              anno_name := if p.is_string then some p.pStr else st.anno_name }
  else
    { st with anno_params := st.anno_params ++ [p] }

/-- `AnnotatedItem.from_cursor` (`__init__.py` lines 895-926), abstracted
over the already-collected parameter list.  `argsNonempty` stands for
`first(cursor.get_arguments())` being truthy.  Parameter 0 is the
optional target item; the grouping loop runs over `params[1:]`
regardless of whether parameter 0 was consumed as the item. -/
def annotatedItemFromParams (spelling : String) (argsNonempty : Bool)
    (params : List AnnotationParam) : Option AnnotatedItem :=
  if !argsNonempty then none
  else match params with
  | [] => none
  | p0 :: rest =>
    let item := if !p0.is_type && !p0.is_object then none else some p0
    let fin := rest.foldl groupStep
      { first_param := true, anno_name := none, anno_params := [], annos := [] }
    some ⟨spelling, item, fin.annos⟩

/- ==================================================================
   Component: Annotation Decoder, marker-attribute protocol
   (`__init__.py` lines 929-962)
   ================================================================== -/

/-- A child of the declaration node: an `ANNOTATE_ATTR` with its
displayname, or a child of any other kind (skipped). -/
inductive AttrNode where
  | annotate (displayname : Str)
  | otherKind
deriving Repr, DecidableEq

/-- An entry of the decoder's result multimap: a committed tuple of
parameter values, a bare `key` flag (Python `True`), or a `key=value`
flag. -/
inductive AEntry where
  | tup (vs : List Str)
  | flagTrue
  | flagStr (v : Str)
deriving Repr, DecidableEq

/-- `PARAM_BEGIN_PREFIX` (`__init__.py` line 31). -/
def paramBeginMark : Str := "arvida-".toList

/-- `PARAM_END + '-'` as used by the end test (`__init__.py` line 938). -/
def paramEndMark : Str := "arvida-eop-".toList

/-- `PARAM_VALUE_PREFIX` (`__init__.py` line 33). -/
def paramValueMark : Str := "arvida-param-".toList

/-- Python `s.find(':')` followed by `s[pos+1:]` when found:
drop through the first `:`, or keep `s` unchanged when there is none. -/
def afterFirstColon (s : Str) : Str :=
  go s s
where
  go : Str → Str → Str
  | [], orig => orig
  | c :: t, orig => if c = ':' then t else go t orig

/-- Python `s.rfind('-')` followed by `s[:pos]` when found: everything
before the last `-`, or `s` unchanged when there is none. -/
def beforeLastDash (s : Str) : Str :=
  if '-' ∈ s then ((s.reverse.dropWhile (fun c => !(c == '-'))).drop 1).reverse else s

/-- Python `s.split('=', 1)`: key before the first `=` and the optional
remainder. -/
def splitEqOnce (s : Str) : Str × Option Str :=
  go s
where
  go : Str → Str × Option Str
  | [] => ([], none)
  | c :: t =>
    if c = '=' then ([], some t)
    else
      let (k, v) := go t
      (c :: k, v)

/-- The decoder's result: per-key ordered entry lists (a
`defaultdict(list)`; keys never appended to read back as `[]`). -/
abbrev AnnoResult := Str → List AEntry

def emptyAnnoResult : AnnoResult := fun _ => []

def annoAppend (r : AnnoResult) (k : Str) (e : AEntry) : AnnoResult :=
  fun k' => if k' = k then r k ++ [e] else r k'

/-- State of `get_annotations_from_cursor`: the open parameter
(name and accumulated values) and the result so far. -/
structure MarkerState where
  current : Option (Str × List Str)
  result : AnnoResult

/-- One child visited by `get_annotations_from_cursor`
(`__init__.py` lines 933-959). -/
def markerStep (st : MarkerState) (n : AttrNode) : MarkerState :=
  match n with
  | .otherKind => st
  | .annotate d =>
    match st.current with
    | some (name, vals) =>
      if paramEndMark.isPrefixOf d then
        { current := none, result := annoAppend st.result name (.tup vals) }
      else if paramValueMark.isPrefixOf d then
        let v := afterFirstColon (d.drop paramValueMark.length)
        { st with current := some (name, vals ++ [v]) }
      else
        st      -- neither end nor value marker: the source falls through
    | none =>
      if paramBeginMark.isPrefixOf d then
        { st with current := some (beforeLastDash (d.drop paramBeginMark.length), []) }
      else
        let (k, v) := splitEqOnce d
        let e := match v with
          | none => AEntry.flagTrue
          | some v => AEntry.flagStr v
        { st with result := annoAppend st.result k e }

/-- `get_annotations_from_cursor` (`__init__.py` lines 929-962): visit
the children in reverse attachment order; a parameter still open at
list end is committed defensively. -/
def get_annotations_from_cursor (children : List AttrNode) : AnnoResult :=
  let fin := (children.reverse).foldl markerStep
    { current := none, result := emptyAnnoResult }
  match fin.current with
  | some (name, vals) => annoAppend fin.result name (.tup vals)
  | none => fin.result

/- ==================================================================
   Component: Semantic Model & Annotation Index
   (`__init__.py` lines 965-1448)
   ================================================================== -/

/-- A value stored in an `Annotatable.annotations` multimap: a string,
a 3-tuple (triple pattern), a committed parameter tuple, or the bare
flag `True`. -/
inductive AVal where
  | sval (s : String)
  | tval (a b c : String)
  | tupv (vs : List String)
  | flagv
deriving Repr, DecidableEq

/-- The multimap is embedded as an append-ordered flat list of
`(key, value)` pairs; per-key order matches the Python
`defaultdict(list)` append order, and a key is "present" iff some pair
carries it (the source never leaves an empty list behind). -/
abbrev AnnoMap := List (String × AVal)

/-- `annotations.get(key, None)`: `none` when the key is absent. -/
def annosGet (l : AnnoMap) (k : String) : Option (List AVal) :=
  let vs := (l.filter (fun p => p.1 = k)).map (·.2)
  if vs.isEmpty then none else some vs

/-- `annotations.get(key, [])`. -/
def annosGetD (l : AnnoMap) (k : String) : List AVal :=
  (l.filter (fun p => p.1 = k)).map (·.2)

/-- `Field` (`__init__.py` lines 1055-1071): name and annotations
(access specifier and type play no role in the indexed claims).
`Field.is_getter` and `Field.is_setter` both return `True`. -/
structure FieldE where
  name : String
  annos : AnnoMap
deriving Repr, DecidableEq

/-- `Function` (`__init__.py` lines 1074-1100): name, argument count
and annotations.  The wrapped cursor of a public `CXX_METHOD` always
satisfies `cw.is_function()`. -/
structure FuncE where
  name : String
  arity : Nat
  annos : AnnoMap
deriving Repr, DecidableEq

/-- `Function.is_getter` (`__init__.py` lines 1082-1086): name prefix
`get` and zero or one argument. -/
def FuncE.is_getter (f : FuncE) : Bool :=
  "get".toList.isPrefixOf f.name.toList && (f.arity = 0 || f.arity = 1)

/-- `Function.is_setter` (`__init__.py` lines 1088-1092): name prefix
`set` and exactly one argument. -/
def FuncE.is_setter (f : FuncE) : Bool :=
  "set".toList.isPrefixOf f.name.toList && f.arity = 1

/-- `Class` (`__init__.py` lines 1109-1241): fully qualified name,
public fields and methods, flattened anonymous nested classes, own
annotations and base-class names. -/
inductive ClassE where
  | mk (full_name : String) (fields : List FieldE) (functions : List FuncE)
       (anonymous : List ClassE) (annos : AnnoMap) (bases : List String)
deriving Repr

def ClassE.full_name : ClassE → String
  | .mk n _ _ _ _ _ => n

def ClassE.fieldsOf : ClassE → List FieldE
  | .mk _ fs _ _ _ _ => fs

def ClassE.functionsOf : ClassE → List FuncE
  | .mk _ _ fs _ _ _ => fs

def ClassE.anonymousOf : ClassE → List ClassE
  | .mk _ _ _ a _ _ => a

def ClassE.annosOf : ClassE → AnnoMap
  | .mk _ _ _ _ a _ => a

def ClassE.basesOf : ClassE → List String
  | .mk _ _ _ _ _ b => b

/-- `Class.has_annotations(check_recursively=True)`
(`__init__.py` lines 1160-1170): own annotations, or an annotation on
a direct function or field.  The source does not descend into
anonymous nested classes here. -/
def ClassE.has_annos_rec (c : ClassE) : Bool :=
  !c.annosOf.isEmpty || c.functionsOf.any (fun f => !f.annos.isEmpty)
    || c.fieldsOf.any (fun f => !f.annos.isEmpty)

/-- `Class.add_annotation`: append to the class's own annotations. -/
def ClassE.addAnno (c : ClassE) (k : String) (v : AVal) : ClassE :=
  match c with
  | .mk n fs fn an annos bs => .mk n fs fn an (annos ++ [(k, v)]) bs

mutual

/-- `Class.find_field` (`__init__.py` lines 1172-1180): first matching
direct field, else the first hit inside the anonymous nested classes. -/
def ClassE.find_field : ClassE → String → Option FieldE
  | .mk _ fields _ anon _ _, n =>
    match fields.find? (fun f => f.name = n) with
    | some f => some f
    | none => findFieldInList anon n

def findFieldInList : List ClassE → String → Option FieldE
  | [], _ => none
  | c :: rest, n =>
    match c.find_field n with
    | some f => some f
    | none => findFieldInList rest n

end

/-- Annotate the first field with the given name in a field list. -/
def updFirstFieldIn (fields : List FieldE) (fname : String) (k : String) (v : AVal) :
    List FieldE :=
  match fields with
  | [] => []
  | f :: rest =>
    if f.name = fname then { f with annos := f.annos ++ [(k, v)] } :: rest
    else f :: updFirstFieldIn rest fname k v

mutual

/-- Annotation of the field returned by `find_field`, as a functional
update: annotate the first matching direct field, else recurse into
the anonymous classes until one reports a hit. -/
def ClassE.annotateFirstField : ClassE → String → String → AVal → ClassE × Bool
  | .mk n fields funcs anon annos bases, fname, k, v =>
    if fields.any (fun f => f.name = fname) then
      (ClassE.mk n (updFirstFieldIn fields fname k v) funcs anon annos bases, true)
    else
      let (anon', hit) := annotateFirstFieldList anon fname k v
      (ClassE.mk n fields funcs anon' annos bases, hit)

def annotateFirstFieldList : List ClassE → String → String → AVal → List ClassE × Bool
  | [], _, _, _ => ([], false)
  | c :: rest, fname, k, v =>
    let (c', hit) := c.annotateFirstField fname k v
    if hit then (c' :: rest, true)
    else
      let (rest', hit') := annotateFirstFieldList rest fname k v
      (c :: rest', hit')

end

mutual

/-- Annotation of every member returned by `find_members`
(`__init__.py` lines 1189-1201): all matching direct fields and
functions, plus everything found in the anonymous nested classes. -/
def ClassE.annotateMembers : ClassE → String → String → AVal → ClassE
  | .mk n fields funcs anon annos bases, mname, k, v =>
    ClassE.mk n
      (fields.map (fun f => if f.name = mname then { f with annos := f.annos ++ [(k, v)] } else f))
      (funcs.map (fun f => if f.name = mname then { f with annos := f.annos ++ [(k, v)] } else f))
      (annotateMembersList anon mname k v) annos bases

def annotateMembersList : List ClassE → String → String → AVal → List ClassE
  | [], _, _, _ => []
  | c :: rest, mname, k, v =>
    c.annotateMembers mname k v :: annotateMembersList rest mname k v

end

/-- `Class.find_functions` (`__init__.py` lines 1182-1187) is non-empty:
a direct method with the given name exists (no anonymous recursion). -/
def ClassE.hasFunctionNamed (c : ClassE) (n : String) : Bool :=
  c.functionsOf.any (fun f => f.name = n)

/-- `Environment` input state for `build_index`: the collected classes
and the collected `AnnotatedItem`s. -/
structure EnvE where
  classes : List ClassE
  annoItems : List AnnotatedItem

/-- The result of `Environment.build_index` relevant to the claims:
updated classes, the `annotated_classes` set (as an insertion-ordered
duplicate-free index list), the global annotation pairs, and the
annotated base/sub-class edges as `(cls, base)` / `(base, sub)` index
pairs. -/
structure EnvIndex where
  classes : List ClassE
  annotated_classes : List Nat
  global_annos : List (String × String)
  base_pairs : List (Nat × Nat)
  sub_pairs : List (Nat × Nat)

/-- `name_to_class_map` lookup: the map is filled in class order, so a
duplicate fully qualified name resolves to the last occurrence. -/
def nameIdx (classes : List ClassE) (n : String) : Option Nat :=
  ((classes.enum.filter (fun p => p.2.full_name = n)).getLast?).map (·.1)

/-- `OrderedSet.add`: append if not already present. -/
def addIdx (s : List Nat) (i : Nat) : List Nat :=
  if i ∈ s then s else s ++ [i]

/-- Update the class at an index. -/
def modClassAt (classes : List ClassE) (i : Nat) (f : ClassE → Option ClassE) :
    Option (List ClassE) :=
  match classes.get? i with
  | none => none
  | some c => (f c).map (fun c' => classes.set i c')

/-- `ca.params[i]` with Python `IndexError` as `none`. -/
def pAt (ps : List AnnotationParam) (i : Nat) : Option AnnotationParam :=
  ps.get? i

/-- The class-annotation dispatch (`__init__.py` lines 1332-1391):
bind one decoded invocation onto the resolved class.  A lookup miss of
the named member silently drops the annotation; a missing positional
parameter is an `IndexError`. -/
def applyClassAnno (c : ClassE) (ca : AnnoInv) : Option ClassE :=
  match ca.name with
  | some "arvida-object-semantic" =>
    some (ca.params.foldl (fun acc p => acc.addAnno "semantic" (.sval p.pStr)) c)
  | some "arvida-field-semantic" => do
    let p0 ← pAt ca.params 0
    let p1 ← pAt ca.params 1
    some (c.annotateFirstField p0.pStr "semantic" (.sval p1.pStr)).1
  | some "arvida-member-semantic" => do
    let p0 ← pAt ca.params 0
    let p1 ← pAt ca.params 1
    some (c.annotateMembers p0.pStr "semantic" (.sval p1.pStr))
  | some "arvida-annotate-member" => do
    let p0 ← pAt ca.params 0
    let p1 ← pAt ca.params 1
    let p2 ← pAt ca.params 2
    some (c.annotateMembers p0.pStr p1.pStr (.sval p2.pStr))
  | some "arvida-class-stmt" => do
    let p0 ← pAt ca.params 0
    let p1 ← pAt ca.params 1
    let p2 ← pAt ca.params 2
    some (c.addAnno "triple" (.tval p0.pStr p1.pStr p2.pStr))
  | some "arvida-class-include" => do
    let p0 ← pAt ca.params 0
    some (c.addAnno "include" (.sval p0.pStr))
  | some "arvida-class-use-visitor" => do
    let p0 ← pAt ca.params 0
    some (c.addAnno "use-visitor" (.sval p0.pStr))
  | some "arvida-member-stmt" => do
    let p0 ← pAt ca.params 0
    let p1 ← pAt ca.params 1
    let p2 ← pAt ca.params 2
    let p3 ← pAt ca.params 3
    some (c.annotateMembers p0.pStr "triple" (.tval p1.pStr p2.pStr p3.pStr))
  | some "arvida-member-path" => do
    let p0 ← pAt ca.params 0
    let p1 ← pAt ca.params 1
    some (c.annotateMembers p0.pStr "path" (.sval p1.pStr))
  | some "arvida-member-absolute-path" => do
    let p0 ← pAt ca.params 0
    let p1 ← pAt ca.params 1
    some (c.annotateMembers p0.pStr "absolute-path" (.sval p1.pStr))
  | some "arvida-member-create-element" => do
    let p0 ← pAt ca.params 0
    let p1 ← pAt ca.params 1
    some (c.annotateMembers p0.pStr "create-element" (.sval p1.pStr))
  | _ => some c

/-- The global-annotation dispatch (`__init__.py` lines 1310-1324):
`include` / `prolog` / `epilog` / `uid-method` collect the first
parameter's string under the corresponding global key. -/
def applyGlobalAnno (g : List (String × String)) (ga : AnnoInv) :
    Option (List (String × String)) :=
  match ga.name with
  | some "arvida-include" => do
    let p0 ← pAt ga.params 0
    some (g ++ [("include", p0.pStr)])
  | some "arvida-prolog" => do
    let p0 ← pAt ga.params 0
    some (g ++ [("prolog", p0.pStr)])
  | some "arvida-epilog" => do
    let p0 ← pAt ga.params 0
    some (g ++ [("epilog", p0.pStr)])
  | some "arvida-uid-method" => do
    let p0 ← pAt ga.params 0
    some (g ++ [("uid-method", p0.pStr)])
  | _ => some g

/-- State threaded through the annotation-item loop. -/
structure ItemLoopState where
  classes : List ClassE
  aset : List Nat
  globals : List (String × String)

/-- One `AnnotatedItem` processed by `build_index`
(`__init__.py` lines 1309-1391): collect global annotations when the
item is global, then look the target name up in `name_to_class_map`
(built once, beforehand); on a hit, add the class to
`annotated_classes` and bind each invocation onto it. -/
def itemStep (nameMap : String → Option Nat) (st : ItemLoopState)
    (a : AnnotatedItem) : Option ItemLoopState := do
  let globals' ←
    if a.is_global then a.annos.foldlM applyGlobalAnno st.globals
    else pure st.globals
  match nameMap a.full_name with
  | none => some { st with globals := globals' }
  | some i =>
    let aset' := addIdx st.aset i
    let classes' ← modClassAt st.classes i
      (fun c => a.annos.foldlM applyClassAnno c)
    some { classes := classes', aset := aset', globals := globals' }

/-- One class visited by the `uid-method` resolution loop. -/
def uidInnerStep (m : String) (acc : List ClassE × List Nat) (i : Nat) :
    List ClassE × List Nat :=
  match acc.1.get? i with
  | none => acc
  | some c =>
    if c.hasFunctionNamed m then
      (acc.1.set i (c.addAnno "uid-method" (.sval m)), addIdx acc.2 i)
    else acc

/-- One `uid-method` global name resolved against every class
(`__init__.py` lines 1393-1399). -/
def uidStep (st : List ClassE × List Nat) (m : String) : List ClassE × List Nat :=
  (List.range st.1.length).foldl (uidInnerStep m) st

/-- Base/sub-class relation update (`__init__.py` lines 1401-1409):
for every class and every base name resolvable in the name map, record
`(cls, base)` when the base is annotated and `(base, sub)` when the
subclass is annotated. -/
def baseSubPairs (classes : List ClassE) (nameMap : String → Option Nat)
    (aset : List Nat) : List (Nat × Nat) × List (Nat × Nat) :=
  classes.enum.foldl
    (fun (acc : List (Nat × Nat) × List (Nat × Nat)) p =>
      p.2.basesOf.foldl
        (fun (acc : List (Nat × Nat) × List (Nat × Nat)) b =>
          match nameMap b with
          | none => acc
          | some j =>
            let acc1 := if j ∈ aset then acc.1 ++ [(p.1, j)] else acc.1
            let acc2 := if p.1 ∈ aset then acc.2 ++ [(j, p.1)] else acc.2
            (acc1, acc2))
        acc)
    ([], [])

/-- `Environment.build_index` (`__init__.py` lines 1299-1448): the
annotated-class set from recursively annotated classes, the
name-to-class map (last occurrence wins), the annotation-item loop,
`uid-method` resolution, and the annotated base/sub-class edges.
The prolog/epilog/include text assembly at the end of the source
function only reads the state built here and is not referenced by any
claim; it is not embedded. -/
def build_index (env : EnvE) : Option EnvIndex := do
  let nameMap := nameIdx env.classes
  let set1 := (List.range env.classes.length).filter
    (fun i => ((env.classes.get? i).map ClassE.has_annos_rec).getD false)
  let st1 ← env.annoItems.foldlM (itemStep nameMap)
    { classes := env.classes, aset := set1, globals := [] }
  let uidNames := (st1.globals.filter (fun p => p.1 = "uid-method")).map (·.2)
  let (classes2, set2) := uidNames.foldl uidStep (st1.classes, st1.aset)
  let (bp, sp) := baseSubPairs classes2 nameMap set2
  some { classes := classes2, annotated_classes := set2, global_annos := st1.globals,
         base_pairs := bp, sub_pairs := sp }

/- ==================================================================
   Component: Path & Triple IR Builder (`generator.py`)
   ================================================================== -/

def lbraceCh : Char := Char.ofNat 123
def rbraceCh : Char := Char.ofNat 125

/-- Hexadecimal digit character (lowercase, as produced by
`json.dumps`). -/
def hexDigitCh (n : Nat) : Char :=
  if n < 10 then Char.ofNat ('0'.toNat + n) else Char.ofNat ('a'.toNat + n - 10)

/-- `\uXXXX` escape. -/
def uEscape (n : Nat) : Str :=
  '\\' :: 'u' :: [hexDigitCh ((n / 4096) % 16), hexDigitCh ((n / 256) % 16),
                  hexDigitCh ((n / 16) % 16), hexDigitCh (n % 16)]

/-- One character escaped as `json.dumps` does (`ensure_ascii` default:
non-ASCII and control characters become `\uXXXX`; basic escapes for
quote, backslash and the common control characters). -/
def jsonEscapeChar (c : Char) : Str :=
  if c = '"' then ['\\', '"']
  else if c = '\\' then ['\\', '\\']
  else if c = '\n' then ['\\', 'n']
  else if c = '\t' then ['\\', 't']
  else if c = '\x0d' then ['\\', 'r']
  else if c = '\x08' then ['\\', 'b']
  else if c = '\x0c' then ['\\', 'f']
  else if c.toNat < 32 || c.toNat > 126 then uEscape c.toNat
  else [c]

/-- `quote_string_literal` (`__init__.py` lines 770-771):
`json.dumps(s)`. -/
def quote_string_literal (s : Str) : Str :=
  '"' :: s.foldr (fun c acc => jsonEscapeChar c ++ acc) ['"']

/-- `TextValue` / `SubstValue` segments produced by
`parse_inline_template` (`generator.py` lines 35-48). -/
inductive PathSeg where
  | textV (value : Str)
  | substV (value : Str)
deriving Repr, DecidableEq

/-- Loop state of `parse_inline_template`. -/
structure InlineState where
  result : List PathSeg
  curstr : Str
  brace_level : Nat
  as_is : Bool

/-- One character of `parse_inline_template` (`generator.py`
lines 58-82). -/
def inlineStep (st : InlineState) (c : Char) : InlineState :=
  if st.as_is then
    { st with as_is := false, curstr := st.curstr ++ [c] }
  else if c = '\\' then
    { st with as_is := true }
  else if c = lbraceCh then
    if st.brace_level + 1 = 1 then
      { result := st.result ++ (if st.curstr.isEmpty then [] else [.textV st.curstr]),
        curstr := [], brace_level := 1, as_is := false }
    else
      { st with brace_level := st.brace_level + 1, curstr := st.curstr ++ [c] }
  else if c = rbraceCh then
    if st.brace_level = 1 then
      { result := st.result ++ [.substV st.curstr], curstr := [],
        brace_level := 0, as_is := false }
    else if st.brace_level > 0 then
      { st with brace_level := st.brace_level - 1, curstr := st.curstr ++ [c] }
    else
      { st with curstr := st.curstr ++ [c] }
  else
    { st with curstr := st.curstr ++ [c] }

/-- `parse_inline_template` (`generator.py` lines 51-85): split an
inline template on unescaped `{...}` markers (escape via backslash);
a segment left open at end of input is committed as a `SubstValue`. -/
def parse_inline_template (s : Str) : List PathSeg :=
  let fin := s.foldl inlineStep
    { result := [], curstr := [], brace_level := 0, as_is := false }
  if fin.curstr.isEmpty then fin.result
  else fin.result ++ [if fin.brace_level > 0 then .substV fin.curstr else .textV fin.curstr]

/-- Python `str.replace`: all non-overlapping occurrences, left to
right.  All call sites pass a non-empty pattern. -/
def replaceAllAux : Nat → Str → Str → Str → Str
  | 0, _, _, s => s
  | fuel + 1, pat, rep, s =>
    if pat.isPrefixOf s then rep ++ replaceAllAux fuel pat rep (s.drop pat.length)
    else
      match s with
      | [] => []
      | c :: t => c :: replaceAllAux fuel pat rep t

def replaceAll (pat rep s : Str) : Str :=
  replaceAllAux (s.length + 1) pat rep s

/-- `subst` (`generator.py` lines 126-129). -/
def substMeta (s : Str) (subst_list : List (Str × Str)) : Str :=
  subst_list.foldl (fun acc p => replaceAll p.1 p.2 acc) s

/-- `DEFAULT_PATH_SUBST_LIST` (`generator.py` lines 119-123). -/
def DEFAULT_PATH_SUBST_LIST : List (Str × Str) :=
  [("$this".toList, "this".toList),
   ("$that".toList, "_that".toList),
   ("$element".toList, "_element".toList),
   ("$ctx".toList, "ctx".toList)]

/-- `normalize_annotation_value` (`generator.py` lines 112-116):
a one-element tuple or list collapses to its element. -/
def normalize_anno_value : AVal → AVal
  | .tupv [v] => .sval v
  | v => v

/-- The places where `process_path_annotation` uses a value as a
string.  A committed multi-value tuple reaching here relies on Python
duck typing over tuples and never occurs for well-formed annotations;
it is embedded as a failure. -/
def avalAsStr : AVal → Option Str
  | .sval s => some s.toList
  | _ => none

/-- `process_path_annotation` (`generator.py` lines 132-153): quoted
literal, raw literal, and the preprocessed join expression built from
the inline-template segments; text segments are literal-quoted, and
substitution segments are meta-variable rewritten and parenthesized;
non-empty pieces are folded left-to-right with
`Arvida::RDF::joinPath`.  The quoted/preprocessed results stay `None`
and `'""'` when the last path is absent or falsy (empty). -/
def process_path_anno (lst : List AVal) (subst_list : List (Str × Str)) :
    Option (Option Str × Option Str × Str) := do
  let paths := lst.map normalize_anno_value
  match paths.getLast? with
  | none => some (none, none, "\"\"".toList)
  | some v => do
    let s ← avalAsStr v
    if s.isEmpty then
      some (none, some s, "\"\"".toList)
    else
      let segs := parse_inline_template s
      let pp := segs.foldl
        (fun pp seg =>
          let value := match seg with
            | .textV t => quote_string_literal t
            | .substV t => '(' :: substMeta t subst_list ++ [')']
          if value.isEmpty then pp
          else if pp.isEmpty then value
          else "Arvida::RDF::joinPath(".toList ++ pp ++ ',' :: value ++ [')'])
        []
      some (some (quote_string_literal s), some s, pp)

/-- A member bound into the generator: a field or a function. -/
inductive MemberE where
  | mfield (f : FieldE)
  | mfunc (f : FuncE)
deriving Repr, DecidableEq

def MemberE.is_getter : MemberE → Bool
  | .mfield _ => true        -- `Field.is_getter` returns True
  | .mfunc f => f.is_getter

def MemberE.is_setter : MemberE → Bool
  | .mfield _ => true        -- `Field.is_setter` returns True
  | .mfunc f => f.is_setter

/-- `THAT_ELEMENT_NAMES` (`generator.py` line 416). -/
def THAT_ELEMENT_NAMES : List String :=
  ["$that.foreach", "$that.element", "$that.item"]

/-- `BlankData` (`generator.py` lines 357-360). -/
structure BlankData where
  label : String
  var_name : String
deriving Repr, DecidableEq

/-- A `TripleNode` (`generator.py` lines 317-491) restricted to the
state the ordering and classification claims read: the variant, the
blank data, the `Value` node's meta-variable and its getter/setter
flags derived from the referenced member.  A `Value`'s compiled path
fields and a `PrefixedName`'s prefix/local-part split are not read by
any claim and are not carried. -/
inductive TNode where
  | blank (data : BlankData) (id : Nat)
  | iri (value : String) (id : Nat)
  | prefixed_name (value : String) (id : Nat)
  | valueN (meta_var : String) (getter setter : Bool) (id : Nat)
deriving Repr, DecidableEq

/-- `Value.is_that_element_ref`: the `container` flag, set iff the
meta-variable is one of `THAT_ELEMENT_NAMES`. -/
def TNode.is_that_element_ref : TNode → Bool
  | .valueN mv _ _ _ => THAT_ELEMENT_NAMES.contains mv
  | _ => false

def TNode.is_that_ref : TNode → Bool
  | .valueN mv _ _ _ => mv = "$that"
  | _ => false

def TNode.is_this_ref : TNode → Bool
  | .valueN mv _ _ _ => mv = "$this"
  | _ => false

def TNode.is_blank_node : TNode → Bool
  | .blank _ _ => true
  | _ => false

def TNode.is_iri_node : TNode → Bool
  | .iri _ _ => true
  | _ => false

def TNode.is_prefixed_name : TNode → Bool
  | .prefixed_name _ _ => true
  | _ => false

/-- `isinstance(v, Value) and v.is_getter()` as used by
`Triple.is_for_writer`. -/
def TNode.value_is_getter : TNode → Bool
  | .valueN _ g _ _ => g
  | _ => false

/-- `isinstance(v, Value) and v.is_setter()` as used by
`Triple.is_for_reader`. -/
def TNode.value_is_setter : TNode → Bool
  | .valueN _ _ s _ => s
  | _ => false

/-- `Triple` (`generator.py` lines 493-600): subject, predicate,
object (the `value` list of length 3) and the template-object id. -/
structure TripleE where
  id : Nat
  subject : TNode
  predicate : TNode
  object : TNode
deriving Repr, DecidableEq

def TripleE.nodes (t : TripleE) : List TNode :=
  [t.subject, t.predicate, t.object]

/-- `Triple.is_for_reader` (`generator.py` lines 551-552). -/
def TripleE.is_for_reader (t : TripleE) : Bool :=
  t.nodes.any TNode.value_is_setter

/-- `Triple.is_for_writer` (`generator.py` lines 554-555). -/
def TripleE.is_for_writer (t : TripleE) : Bool :=
  t.nodes.any TNode.value_is_getter

/-- `Triple.is_common` (`generator.py` lines 547-549). -/
def TripleE.is_common (t : TripleE) : Bool :=
  !t.is_for_reader && !t.is_for_writer

/-- `Triple.has_that_element_ref` (`generator.py` lines 557-561), also
the per-triple test inside `process_triples`. -/
def TripleE.has_that_element_ref (t : TripleE) : Bool :=
  t.nodes.any TNode.is_that_element_ref

/-- Per-class state used while creating triples: the blank-label map
(`cls.blanks`, insertion-ordered), `cls.blank_id` and the
`itertools.count` id generator. -/
structure GenState where
  blanks : List (String × BlankData)
  blank_id : Nat
  next_id : Nat
deriving Repr, DecidableEq

def GenState.fresh (st : GenState) : Nat × GenState :=
  (st.next_id, { st with next_id := st.next_id + 1 })

/-- `create_blank` (`generator.py` lines 683-689): reuse the
`BlankData` allocated for a label, or allocate `_b<n>` on first use. -/
def create_blank (st : GenState) (elem : String) : TNode × GenState :=
  match (st.blanks.find? (fun p => p.1 = elem)).map (·.2) with
  | some data =>
    let (i, st') := st.fresh
    (.blank data i, st')
  | none =>
    let data : BlankData := ⟨elem, "_b" ++ toString st.blank_id⟩
    let st' := { st with blanks := st.blanks ++ [(elem, data)],
                         blank_id := st.blank_id + 1 }
    let (i, st'') := st'.fresh
    (.blank data i, st'')

/-- Python `sub in s`: contiguous substring search. -/
def listHasInfix (sub : Str) : Str → Bool
  | [] => sub.isPrefixOf []
  | c :: t => sub.isPrefixOf (c :: t) || listHasInfix sub t

def strContains (sub : String) (s : String) : Bool :=
  listHasInfix sub.toList s.toList

def strHasPfx (p : String) (s : String) : Bool :=
  p.toList.isPrefixOf s.toList

/-- Classify one raw triple element (`generator.py` lines 693-709):
blank-node sigil, `$this`, `$that` / element synonym (member context
required), absolute IRI (`://`), prefixed name (`:`); anything else is
a hard decode error (`none`).  The `Value` nodes carry the
getter/setter flags of the referenced class or member. -/
def classify_elem (st : GenState) (elem : String) (member : Option MemberE) :
    Option (TNode × GenState) :=
  if strHasPfx "_:" elem then
    some (create_blank st elem)
  else if elem = "$this" then
    -- `Value(cls, ...)`: a class is neither `Field` nor `Function`
    let (i, st') := st.fresh
    some (.valueN elem false false i, st')
  else if elem = "$that" || THAT_ELEMENT_NAMES.contains elem then
    match member with
    | none => none   -- 'Per class triple annotation cannot refer to %s'
    | some m =>
      let (i, st') := st.fresh
      some (.valueN elem m.is_getter m.is_setter i, st')
  else if strContains "://" elem then
    let (i, st') := st.fresh
    some (.iri elem i, st')
  else if strContains ":" elem then
    let (i, st') := st.fresh
    some (.prefixed_name elem i, st')
  else
    none             -- 'Unknown element in triple annotation: %s'

/-- `create_triple` (`generator.py` lines 691-710): allocate the triple
id, then classify subject, predicate and object in order. -/
def create_triple (st : GenState) (a b c : String) (member : Option MemberE) :
    Option (TripleE × GenState) := do
  let (tid, st0) := st.fresh
  let (ns, st1) ← classify_elem st0 a member
  let (np, st2) ← classify_elem st1 b member
  let (no, st3) ← classify_elem st2 c member
  some (⟨tid, ns, np, no⟩, st3)

/-- `node_value` (`generator.py` lines 282-293): the fixed per-node
weight. -/
def node_value (v : TNode) : Nat :=
  if v.is_this_ref then 1
  else if v.is_that_ref then 10
  else if v.is_that_element_ref then 100
  else if v.is_iri_node || v.is_prefixed_name then 1000
  else if v.is_blank_node then 10000
  else 100000

/-- The sum compared by `cmp_triple` (`generator.py` lines 295-298). -/
def triple_value (t : TripleE) : Nat :=
  node_value t.subject + node_value t.predicate + node_value t.object

/-- Stable insertion by `triple_value`. -/
def sortedInsertTriple (x : TripleE) : List TripleE → List TripleE
  | [] => [x]
  | y :: l =>
    if triple_value x ≤ triple_value y then x :: y :: l
    else y :: sortedInsertTriple x l

/-- `sorted(self.triples, cmp=cmp_triple)` (`generator.py` line 300).
Python's `sorted` is stable; a stable sort with respect to a total
preorder is extensionally unique, and this insertion sort is stable
and sorted (proved below), so it is the same function. -/
def sortTriples : List TripleE → List TripleE
  | [] => []
  | x :: l => sortedInsertTriple x (sortTriples l)

/-- `MemberTripleContainer.process_triples` (`generator.py`
lines 274-311): sort, then split into `member_triples` (first
component) and `member_element_triples` (second component), preserving
the sorted order. -/
def process_triples (triples : List TripleE) : List TripleE × List TripleE :=
  (sortTriples triples).foldl
    (fun acc t =>
      if t.has_that_element_ref then (acc.1, acc.2 ++ [t])
      else (acc.1 ++ [t], acc.2))
    ([], [])

/-- `MemberTripleContainer` (`generator.py` lines 156-314) restricted
to the owning member and the raw triples; the path descriptor fields
are computed by `process_path_anno` above and are not read by the
classification claims. -/
structure MTC where
  member : Option MemberE
  triples : List TripleE
deriving Repr, DecidableEq

/-- The `getter` flag set in the constructor (`generator.py`
lines 205-210). -/
def MTC.getter (m : MTC) : Bool :=
  match m.member with
  | some mem => mem.is_getter
  | none => false

/-- The `setter` flag set in the constructor. -/
def MTC.setter (m : MTC) : Bool :=
  match m.member with
  | some mem => mem.is_setter
  | none => false

/-- `MemberTripleContainer.is_common` (`generator.py` lines 264-266). -/
def MTC.is_common (m : MTC) : Bool :=
  !m.setter && !m.getter

/-- `MemberTripleContainer.is_for_reader` (`generator.py`
lines 268-269). -/
def MTC.is_for_reader (m : MTC) : Bool :=
  m.member.isNone || m.setter

/-- `MemberTripleContainer.is_for_writer` (`generator.py`
lines 271-272). -/
def MTC.is_for_writer (m : MTC) : Bool :=
  m.member.isNone || m.getter

/- ==================================================================
   Component: Annotation Propagation (`generator.py` lines 603-674)
   ================================================================== -/

/-- The per-class `'uid-method'` annotation entries: `none` when the
key is absent, `some vs` for the appended value list.  Classes are
addressed by index; `subs` gives each class's `annotated_sub_classes`. -/
abbrev UidState := Nat → Option (List String)

/-- The `for sub_cls in cls.annotated_sub_classes` loop, abstracted
over the recursive call: thread the state through the subclass list,
stopping on failure. -/
def propagate_list_with (f : Nat → UidState → Option UidState) :
    List Nat → UidState → Option UidState
  | [], st => some st
  | s :: rest, st =>
    match f s st with
    | none => none
    | some st' => propagate_list_with f rest st'

/-- `TemplateProcessor.propagate_annotation` (`generator.py`
lines 607-619) for a list-valued annotation: keep an existing entry
(first assignment wins), otherwise adopt the propagated value; when
the resulting value is truthy, propagate it into every annotated
subclass.  The source recursion has no depth guard; `fuel` bounds it,
and `none` models non-termination (never reached on acyclic
inheritance with sufficient fuel). -/
def propagate_anno (subs : Nat → List Nat) : Nat → Nat → Option (List String) →
    UidState → Option UidState
  | 0, _, _, _ => none
  | fuel + 1, c, av, st =>
    match st c with
    | some v =>
      if v.isEmpty then some st
      else propagate_list_with (fun s st => propagate_anno subs fuel s (some v) st)
        (subs c) st
    | none =>
      match av with
      | none => some st
      | some vs =>
        if vs.isEmpty then some st
        else propagate_list_with (fun s st => propagate_anno subs fuel s (some vs) st)
          (subs c) (fun k => if k = c then some vs else st k)

/-- The driving loop `for cls in environment.classes:
propagate_annotation(cls, 'uid-method', None)` (`generator.py`
lines 623-624). -/
def propagate_uid_all (subs : Nat → List Nat) (fuel : Nat) (idxs : List Nat)
    (st : UidState) : Option UidState :=
  idxs.foldlM (fun s c => propagate_anno subs fuel c none s) st

/-- `PathType` (`generator.py` lines 27-28). -/
inductive PathType where
  | ABSOLUTE_PATH
  | RELATIVE_PATH
  | RELATIVE_TO_BASE_PATH
  | NO_PATH
deriving Repr, DecidableEq

/-- The per-class path processing of `process_environment`
(`generator.py` lines 649-674), one class at a time: the first loop
selects absolute paths, else switches to absolute addressing when a
`uid-method` annotation is present; the second loop then overrides the
path type to `RELATIVE_TO_BASE_PATH` for every class carrying a
`uid-method` annotation.  Returns the final path type and uid-accessor
value. -/
def process_cls_path (paths absPaths : List AVal) (uid : Option (List String)) :
    Option (PathType × Option (List String) × (Option Str × Option Str × Str)) := do
  -- first loop (lines 650-667)
  let pt1 : PathType := .RELATIVE_PATH
  let (paths1, pt1, uid1) :=
    if !absPaths.isEmpty then (absPaths, PathType.ABSOLUTE_PATH, none)
    else match uid with
      | some u => (paths, PathType.ABSOLUTE_PATH, some u)
      | none => (paths, pt1, none)
  let compiled ← process_path_anno paths1
    [("$this".toList, "_this".toList), ("$ctx".toList, "ctx".toList)]
  -- second loop (lines 669-674)
  let (pt2, uid2) :=
    match uid with
    | some u => (PathType.RELATIVE_TO_BASE_PATH, some u)
    | none => (pt1, uid1)
  some (pt2, uid2, compiled)

/- ==================================================================
   Spec-side comparison predicates and reachability
   ================================================================== -/

/-- Reachability along `annotated_sub_classes` edges, used to state
that propagation moves only downward. -/
inductive SubReach (subs : Nat → List Nat) : Nat → Nat → Prop
  | refl (c : Nat) : SubReach subs c c
  | head {c s k : Nat} : s ∈ subs c → SubReach subs s k → SubReach subs c k

/-- Does a member triple group "touch a getter member"?  Modelled from
the spec's words for the refinement comparison of claim C3: the
owning member is a getter, or some value node of a triple references
a getter member. -/
def mtcTouchesGetter (m : MTC) : Bool :=
  m.getter || m.triples.any (fun t => t.nodes.any TNode.value_is_getter)

/-- "Touches a setter member", same modelling. -/
def mtcTouchesSetter (m : MTC) : Bool :=
  m.setter || m.triples.any (fun t => t.nodes.any TNode.value_is_setter)

/-- Modelled from the spec: "reader-applicable iff it touches no getter
member". -/
def spec_reader_applicable (m : MTC) : Bool :=
  !mtcTouchesGetter m

/-- Modelled from the spec: "writer-applicable iff it touches no setter
member". -/
def spec_writer_applicable (m : MTC) : Bool :=
  !mtcTouchesSetter m

mutual

/-- Does the class or any member (anonymous nested members included,
reading the spec's "any member" generously) carry an annotation? -/
def ClassE.anyMemberAnno : ClassE → Bool
  | .mk _ fields funcs anon _ _ =>
    fields.any (fun f => !f.annos.isEmpty) || funcs.any (fun f => !f.annos.isEmpty)
      || anyMemberAnnoList anon

def anyMemberAnnoList : List ClassE → Bool
  | [] => false
  | c :: rest => c.anyMemberAnno || anyMemberAnnoList rest

end

/-- Modelled from the spec: "a class is a member of the annotated-class
set iff the class itself or at least one of its members carries at
least one annotation, or the class has a resolved uid-accessor
method" — evaluated on the state after `build_index`. -/
def spec_annotated_class (ix : EnvIndex) (i : Nat) : Bool :=
  match ix.classes.get? i with
  | none => false
  | some c =>
    !c.annosOf.isEmpty || c.anyMemberAnno ||
      ((ix.global_annos.filter (fun p => p.1 = "uid-method")).map (·.2)).any
        (fun m => c.hasFunctionNamed m)

/- ==================================================================
   Concrete instances used by the claim theorems
   ================================================================== -/

/-- The tree `Foo(Bar(int, 4), Baz)`. -/
def fooTree : TSpell :=
  .node (.tname "Foo".toList) true
    [.node (.tname "Bar".toList) true [.node (.tname "int".toList) false [], .lit 4],
     .node (.tname "Baz".toList) false []]

/-- A wrapper around a plain `const`-qualified non-reference type
(`const int`). -/
def wConstInt : CursorWrapper := ⟨.mk .other true false false none, false, false, false⟩

/-- A wrapper around an lvalue reference whose referee is
volatile-qualified but not const-qualified (`volatile int &`). -/
def wRefVolatile : CursorWrapper :=
  ⟨.mk .lvalueReference false false false (some (.mk .other false true false none)),
   false, false, false⟩

/-- Argument list of a marker call whose named invocation is never
closed by the end-of-parameters sentinel. -/
def c1Params : List AnnotationParam :=
  [.typeP "::C", .stringP "arvida-class-include", .stringP "x"]

/-- The getter function `getName` (no arguments, no annotations). -/
def getNameFn : FuncE := ⟨"getName", 0, []⟩

/-- A member function that is neither a getter nor a setter. -/
def plainFn : FuncE := ⟨"name", 0, []⟩

/-- A triple group owned by the plain (neither-getter-nor-setter)
function, holding one triple that references no member. -/
def mtcPlainFn : MTC :=
  { member := some (.mfunc plainFn),
    triples := [⟨0, .blank ⟨"_:b1", "_b0"⟩ 1, .prefixed_name "rdf:type" 2,
                 .prefixed_name "ex:T" 3⟩] }

/-- The triple `[$this, ex:hasName, $that]` as built by `create_triple`
for the member `getName` (ids from a fresh per-class counter). -/
def tThisExample : TripleE :=
  ⟨0, .valueN "$this" false false 1, .prefixed_name "ex:hasName" 2,
   .valueN "$that" true false 3⟩

/-- The triple `[_:b1, $this, rdf:type]` as built by `create_triple`
with no member context. -/
def tBlankExample : TripleE :=
  ⟨0, .blank ⟨"_:b1", "_b0"⟩ 1, .valueN "$this" false false 2,
   .prefixed_name "rdf:type" 3⟩

/-- Fresh per-class generator state. -/
def genState0 : GenState := ⟨[], 0, 0⟩

/-- The inheritance scenario of claim C4: class `B` (index 0) with an
annotated subclass `D` (index 1). -/
def subsBD : Nat → List Nat := fun n => if n = 0 then [1] else []

/-- `B` declares uid-accessor `getId`; `D` declares none. -/
def uidStateB : UidState := fun n => if n = 0 then some ["getId"] else none

/-- The counterexample environment of claim C9: one class `::C` with a
single unannotated field `g`, and one decoded annotation item
targeting `::C` whose only invocation names a field `nosuch` that the
class does not have. -/
def ceClassC : ClassE := .mk "::C" [⟨"g", []⟩] [] [] [] []

def ceEnv : EnvE :=
  ⟨[ceClassC],
   [⟨"arvida_reflect_object", some (.typeP "::C"),
     [⟨some "arvida-field-semantic", [.stringP "nosuch", .stringP "v"]⟩]⟩]⟩

/- ==================================================================
   Theorems
   ================================================================== -/

/-- Claim C6: parsing `Foo<Bar<int,4>,Baz>` yields the template-argument tree
`Foo(Bar(int,4), Baz)`, and re-stringifying that tree yields a
spelling that parses back to an equal tree. -/
theorem C6_type_spelling_round_trip :
    analyze_type_spelling "Foo<Bar<int,4>,Baz>".toList = some fooTree ∧
    analyze_type_spelling (typeSpellingStr fooTree) = some fooTree :=
  ⟨rfl, rfl⟩

/-- Claim C8, counterexample: `value_type` does not always return a wrapper
free of reference kind, const and volatile qualification — the
non-reference wrapper around `const int` is returned unchanged and is
still const-qualified. -/
theorem C8_counterexample :
    ¬ (∀ w : CursorWrapper, w.value_type.is_reference = false ∧
        w.value_type.is_const = false ∧ w.value_type.is_volatile = false) := by
  intro h
  have hc := (h wConstInt).2.1
  have hv := (h wRefVolatile).2.2
  revert hc
  decide

/-- Claim C8, amended: `value_type` returns a non-reference wrapper
unchanged, qualifiers intact; when the wrapper is a reference it wraps
the pointee, is never const-qualified, and keeps the volatile
qualifier exactly when the pointee is volatile but not const (the
doubled negation in `remove_cv`). -/
theorem C8_value_type_amended (w : CursorWrapper) :
    (w.is_reference = false → w.value_type = w) ∧
    (w.is_reference = true →
      w.value_type.ty = w.ty.get_pointee ∧
      w.value_type.is_const = false ∧
      w.value_type.is_volatile = (!w.ty.get_pointee.constQ && w.ty.get_pointee.volatileQ)) := by
  obtain ⟨⟨k, cq, vq, rq, po⟩, nc, nv, nr⟩ := w
  constructor
  · intro h
    simp [CursorWrapper.value_type, h]
  · intro h
    simp only [CursorWrapper.value_type, h, if_true, CursorWrapper.remove_reference]
    rcases po with _ | ⟨pk, pc, pv, pr, pp⟩ <;>
      simp [CXType.get_pointee, CursorWrapper.remove_cv, CursorWrapper.is_const,
        CursorWrapper.is_volatile, CXType.constQ, CXType.volatileQ] <;>
      cases pc <;> cases pv <;> simp

/-- Claim C8, witness: the amended theorem applied to the two concrete
wrappers. -/
theorem C8_value_type_amended_witness :
    wConstInt.value_type = wConstInt ∧
    wRefVolatile.value_type.is_volatile = (!wRefVolatile.ty.get_pointee.constQ &&
      wRefVolatile.ty.get_pointee.volatileQ) :=
  ⟨(C8_value_type_amended wConstInt).1 rfl,
   ((C8_value_type_amended wRefVolatile).2 rfl).2.2⟩

/-- Claim C7, counterexample: for the path annotation `{$this}/name` the
compiled path expression is a `joinPath` of the substituted variable
segment and the quoted literal `"/name"`, not the single variable
segment `(this)`. -/
theorem C7_counterexample :
    (process_path_anno [.sval "\x7b$this\x7d/name"] DEFAULT_PATH_SUBST_LIST).map
        (fun r => r.2.2) =
      some "Arvida::RDF::joinPath((this),\"/name\")".toList ∧
    (process_path_anno [.sval "\x7b$this\x7d/name"] DEFAULT_PATH_SUBST_LIST).map
        (fun r => r.2.2) ≠ some "(this)".toList := by
  constructor
  · rfl
  · decide

/-- Claim C7, amended: the inline template `{$this}/name` splits into the
substitution segment `$this` followed by the text segment `/name`;
the compiled expression therefore joins the substituted variable
segment `(this)` with the quoted literal `"/name"` — the variable
segment comes first, with no literal prefix before it. -/
theorem C7_path_compilation_amended :
    parse_inline_template "\x7b$this\x7d/name".toList =
      [.substV "$this".toList, .textV "/name".toList] ∧
    process_path_anno [.sval "\x7b$this\x7d/name"] DEFAULT_PATH_SUBST_LIST =
      some (some (quote_string_literal "\x7b$this\x7d/name".toList),
            some "\x7b$this\x7d/name".toList,
            "Arvida::RDF::joinPath((this),\"/name\")".toList) :=
  ⟨rfl, rfl⟩

/-- Claim C1, counterexample: a named invocation still open when the argument
list ends does not appear in the decoder's output — the annotation
list is empty, not the one-element list the claim predicts. -/
theorem C1_counterexample :
    (annotatedItemFromParams "arvida_reflect_object" true c1Params).map
        AnnotatedItem.annos = some [] ∧
    (annotatedItemFromParams "arvida_reflect_object" true c1Params).map
        AnnotatedItem.annos ≠
      some [⟨some "arvida-class-include", [AnnotationParam.stringP "x"]⟩] := by
  constructor
  · rfl
  · decide

/-- The grouping loop commits exactly one invocation per
end-of-parameters sentinel it sees. -/
theorem groupStep_fold_len (rest : List AnnotationParam) :
    ∀ st : GroupState,
      ((rest.foldl groupStep st).annos).length =
        st.annos.length + rest.countP (fun p => p.is_end_of_parameters) := by
  induction rest with
  | nil => intro st; simp
  | cons p rest ih =>
    intro st
    simp only [List.foldl_cons, List.countP_cons]
    rw [ih]
    unfold groupStep
    by_cases h : p.is_end_of_parameters = true
    · simp [h]; omega
    · simp at h
      simp [h]
      split <;> simp

/-- Claim C1, amended: an invocation still open when the argument list ends
is discarded — the decoder's output holds exactly one invocation per
end-of-parameters sentinel in the argument tail, and an invocation
appears only when the sentinel closed it (the concrete conjunct shows
the sentinel-closed invocation appearing with its collected
arguments). -/
theorem C1_grouping_amended :
    (∀ (spelling : String) (params : List AnnotationParam) (a : AnnotatedItem),
       annotatedItemFromParams spelling true params = some a →
       a.annos.length = (params.drop 1).countP (fun p => p.is_end_of_parameters)) ∧
    annotatedItemFromParams "arvida_reflect_object" true
        (c1Params ++ [.stringP "arvida-eop"]) =
      some ⟨"arvida_reflect_object", some (.typeP "::C"),
            [⟨some "arvida-class-include", [.stringP "x"]⟩]⟩ := by
  constructor
  · intro spelling params a h
    match params with
    | [] => simp [annotatedItemFromParams] at h
    | p0 :: rest =>
      simp only [annotatedItemFromParams, Bool.not_true, Bool.false_eq_true, if_false,
        Option.some.injEq] at h
      subst h
      simp [groupStep_fold_len]
  · rfl

/-- Claim C1, witness: the amended count equality at the concrete unterminated
argument list. -/
theorem C1_grouping_amended_witness :
    ∃ a, annotatedItemFromParams "arvida_reflect_object" true c1Params = some a ∧
      a.annos.length = (c1Params.drop 1).countP (fun p => p.is_end_of_parameters) := by
  refine ⟨⟨"arvida_reflect_object", some (.typeP "::C"), []⟩, rfl, ?_⟩
  exact C1_grouping_amended.1 "arvida_reflect_object" c1Params _ rfl

/-- Claim C3, counterexample: the triple group owned by a member function that
is neither a getter nor a setter is, per the code, neither
reader-applicable nor writer-applicable, while the claim's
"touches no getter / no setter" reading predicts both. -/
theorem C3_counterexample :
    ¬ ((mtcPlainFn.is_for_reader = true ↔ spec_reader_applicable mtcPlainFn = true) ∧
       (mtcPlainFn.is_for_writer = true ↔ spec_writer_applicable mtcPlainFn = true)) := by
  decide

/-- `"set"` is never a prefix of a string starting with `"get"`. -/
theorem get_not_set (l : List Char) (h : "get".toList <+: l) : ¬ "set".toList <+: l := by
  obtain ⟨r, rfl⟩ := h
  rintro ⟨r', he⟩
  simp at he

/-- Claim C3, amended: a group is reader-applicable iff it is class-global
or its owning member is a setter, writer-applicable iff class-global
or a getter, and common iff the owner is neither; hence a group owned
by a getter function (name prefix `get`, at most one argument) is
writer-applicable and not reader-applicable, one owned by a plain
function is common but serves neither mode, a field-owned group serves
both modes, and a triple is common iff none of its nodes references a
getter or setter member. -/
theorem C3_classification_amended :
    (∀ (f : FuncE) (ts : List TripleE),
       "get".toList <+: f.name.toList → f.arity ≤ 1 →
       (MTC.mk (some (.mfunc f)) ts).is_for_writer = true ∧
       (MTC.mk (some (.mfunc f)) ts).is_for_reader = false ∧
       (MTC.mk (some (.mfunc f)) ts).is_common = false) ∧
    (∀ (f : FuncE) (ts : List TripleE),
       ¬ "get".toList <+: f.name.toList →
       ¬ "set".toList <+: f.name.toList →
       (MTC.mk (some (.mfunc f)) ts).is_common = true ∧
       (MTC.mk (some (.mfunc f)) ts).is_for_reader = false ∧
       (MTC.mk (some (.mfunc f)) ts).is_for_writer = false) ∧
    (∀ (f : FieldE) (ts : List TripleE),
       (MTC.mk (some (.mfield f)) ts).is_for_reader = true ∧
       (MTC.mk (some (.mfield f)) ts).is_for_writer = true ∧
       (MTC.mk (some (.mfield f)) ts).is_common = false) ∧
    (∀ ts : List TripleE, (MTC.mk none ts).is_for_reader = true ∧
       (MTC.mk none ts).is_for_writer = true) ∧
    (∀ t : TripleE, t.is_common = true ↔
       ∀ n ∈ t.nodes, n.value_is_getter = false ∧ n.value_is_setter = false) := by
  refine ⟨?_, ?_, ?_, ?_, ?_⟩
  · intro f ts hg ha
    have hs := get_not_set _ hg
    have harity : f.arity = 0 ∨ f.arity = 1 := Nat.le_one_iff_eq_zero_or_eq_one.mp ha
    simp [MTC.is_for_writer, MTC.is_for_reader, MTC.is_common, MTC.getter, MTC.setter,
      MemberE.is_getter, MemberE.is_setter, FuncE.is_getter, FuncE.is_setter, hg, hs, harity]
    tauto
  · intro f ts hg hs
    have hg' : "get".toList.isPrefixOf f.name.data = false :=
      Bool.eq_false_iff.mpr (fun hc => hg (List.isPrefixOf_iff_prefix.mp hc))
    have hs' : "set".toList.isPrefixOf f.name.data = false :=
      Bool.eq_false_iff.mpr (fun hc => hs (List.isPrefixOf_iff_prefix.mp hc))
    simp [MTC.is_for_writer, MTC.is_for_reader, MTC.is_common, MTC.getter, MTC.setter,
      MemberE.is_getter, MemberE.is_setter, FuncE.is_getter, FuncE.is_setter]
    exact ⟨⟨Or.inl hs', Or.inl hg'⟩, fun hc => absurd hc hs, fun hc => absurd hc hg⟩
  · intro f ts
    simp [MTC.is_for_writer, MTC.is_for_reader, MTC.is_common, MTC.getter, MTC.setter,
      MemberE.is_getter, MemberE.is_setter]
  · intro ts
    simp [MTC.is_for_writer, MTC.is_for_reader]
  · intro t
    simp only [TripleE.is_common, TripleE.is_for_reader, TripleE.is_for_writer,
      Bool.and_eq_true, Bool.not_eq_true', List.any_eq_false]
    constructor
    · intro h n hn
      exact ⟨by simpa using h.2 n hn, by simpa using h.1 n hn⟩
    · intro h
      refine ⟨fun n hn => ?_, fun n hn => ?_⟩ <;> simp [(h n hn).1, (h n hn).2]

/-- Claim C3, witness: the amended classification at the concrete getter
`getName` and the plain function `name`. -/
theorem C3_classification_amended_witness :
    (MTC.mk (some (.mfunc getNameFn)) []).is_for_writer = true ∧
    (MTC.mk (some (.mfunc getNameFn)) []).is_for_reader = false ∧
    mtcPlainFn.is_common = true := by
  refine ⟨(C3_classification_amended.1 getNameFn [] ⟨"Name".toList, rfl⟩ (by decide)).1,
          (C3_classification_amended.1 getNameFn [] ⟨"Name".toList, rfl⟩ (by decide)).2.1,
          (C3_classification_amended.2.1 plainFn mtcPlainFn.triples (by decide) (by decide)).1⟩

/-- Membership in a stable insertion. -/
theorem mem_sortedInsert (x z : TripleE) (l : List TripleE) :
    z ∈ sortedInsertTriple x l ↔ z = x ∨ z ∈ l := by
  induction l with
  | nil => simp [sortedInsertTriple]
  | cons y l ih =>
    unfold sortedInsertTriple
    split
    · simp
    · simp [ih]
      tauto

/-- Inserting into a weight-sorted list keeps it weight-sorted. -/
theorem pairwise_sortedInsert (x : TripleE) (l : List TripleE)
    (h : l.Pairwise (fun a b => triple_value a ≤ triple_value b)) :
    (sortedInsertTriple x l).Pairwise (fun a b => triple_value a ≤ triple_value b) := by
  induction l with
  | nil => simp [sortedInsertTriple]
  | cons y l ih =>
    unfold sortedInsertTriple
    rcases List.pairwise_cons.mp h with ⟨hy, hl⟩
    split
    · rename_i hle
      refine List.pairwise_cons.mpr ⟨?_, h⟩
      intro z hz
      rcases List.mem_cons.mp hz with rfl | hz
      · exact hle
      · exact Nat.le_trans hle (hy _ hz)
    · rename_i hgt
      refine List.pairwise_cons.mpr ⟨?_, ih hl⟩
      intro z hz
      rcases (mem_sortedInsert x z l).mp hz with rfl | hz
      · omega
      · exact hy _ hz

/-- The embedded sort produces a weight-sorted list. -/
theorem pairwise_sortTriples (l : List TripleE) :
    (sortTriples l).Pairwise (fun a b => triple_value a ≤ triple_value b) := by
  induction l with
  | nil => simp [sortTriples]
  | cons x l ih => exact pairwise_sortedInsert x (sortTriples l) ih

/-- Stability of the insertion step: filtering by any predicate that
only selects triples of one fixed weight commutes with insertion. -/
theorem filter_sortedInsert (p : TripleE → Bool)
    (hp : ∀ y z, p y = true → p z = true → triple_value y = triple_value z)
    (x : TripleE) (l : List TripleE) :
    (sortedInsertTriple x l).filter p =
      if p x then x :: l.filter p else l.filter p := by
  induction l with
  | nil => cases hpx : p x <;> simp [sortedInsertTriple, List.filter, hpx]
  | cons y l ih =>
    unfold sortedInsertTriple
    split
    · rename_i hle
      by_cases hx : p x = true <;> simp [List.filter_cons, hx]
    · rename_i hgt
      by_cases hx : p x = true
      · have hy : p y = false := by
          by_contra hc
          rw [Bool.not_eq_false] at hc
          have := hp _ _ hx hc
          omega
        simp [List.filter_cons, hy, ih, hx]
      · simp only [Bool.not_eq_true] at hx
        simp [List.filter_cons, ih, hx]

/-- Stability of the embedded sort: for any predicate selecting triples
of a single weight, the sorted list filters to the same sequence as
the input — equal-weight triples never reorder. -/
theorem filter_sortTriples (p : TripleE → Bool)
    (hp : ∀ y z, p y = true → p z = true → triple_value y = triple_value z) :
    ∀ l : List TripleE, (sortTriples l).filter p = l.filter p := by
  intro l
  induction l with
  | nil => rfl
  | cons x l ih =>
    show (sortedInsertTriple x (sortTriples l)).filter p = _
    rw [filter_sortedInsert p hp, ih, List.filter_cons]

/-- The partition loop of `process_triples` appends each triple of the
sorted list to exactly one of the two groups, preserving order. -/
theorem partition_foldl (l : List TripleE) :
    ∀ acc : List TripleE × List TripleE,
      l.foldl (fun acc t =>
          if t.has_that_element_ref then (acc.1, acc.2 ++ [t])
          else (acc.1 ++ [t], acc.2)) acc =
        (acc.1 ++ l.filter (fun t => !t.has_that_element_ref),
         acc.2 ++ l.filter (fun t => t.has_that_element_ref)) := by
  induction l with
  | nil => simp
  | cons t l ih =>
    intro acc
    simp only [List.foldl_cons]
    rw [ih]
    by_cases h : t.has_that_element_ref = true <;> simp [h, List.filter_cons]

/-- `process_triples` as the two order-preserving filters of the sorted
list. -/
theorem process_triples_eq_filters (ts : List TripleE) :
    process_triples ts =
      ((sortTriples ts).filter (fun t => !t.has_that_element_ref),
       (sortTriples ts).filter (fun t => t.has_that_element_ref)) := by
  unfold process_triples
  rw [partition_foldl]
  simp

/-- Claim C2: after `process_triples` both group lists are sorted ascending
by the summed per-node weight; the weights order
this < that < element-ref < IRI/prefixed-name < blank (< unrecognized),
and the concrete triple `[$this, ex:hasName, $that]` sorts before
`[_:b1, $this, rdf:type]`. -/
theorem C2_triple_ordering :
    (∀ ts : List TripleE,
        (process_triples ts).1.Pairwise (fun a b => triple_value a ≤ triple_value b) ∧
        (process_triples ts).2.Pairwise (fun a b => triple_value a ≤ triple_value b)) ∧
    (∀ v : TNode,
        (v.is_this_ref = true → node_value v = 1) ∧
        (v.is_that_ref = true → node_value v = 10) ∧
        (v.is_that_element_ref = true → node_value v = 100) ∧
        ((v.is_iri_node || v.is_prefixed_name) = true → node_value v = 1000) ∧
        (v.is_blank_node = true → node_value v = 10000)) ∧
    create_triple genState0 "$this" "ex:hasName" "$that" (some (.mfunc getNameFn)) =
      some (tThisExample, ⟨[], 0, 4⟩) ∧
    create_triple genState0 "_:b1" "$this" "rdf:type" none =
      some (tBlankExample, ⟨[("_:b1", ⟨"_:b1", "_b0"⟩)], 1, 4⟩) ∧
    triple_value tThisExample < triple_value tBlankExample ∧
    process_triples [tBlankExample, tThisExample] =
      ([tThisExample, tBlankExample], []) := by
  refine ⟨?_, ?_, rfl, rfl, by decide, by decide⟩
  · intro ts
    rw [process_triples_eq_filters]
    exact ⟨(pairwise_sortTriples ts).sublist (List.filter_sublist _),
           (pairwise_sortTriples ts).sublist (List.filter_sublist _)⟩
  · intro v
    cases v with
    | blank d i => exact ⟨fun h => by simp [TNode.is_this_ref] at h,
        fun h => by simp [TNode.is_that_ref] at h,
        fun h => by simp [TNode.is_that_element_ref] at h,
        fun h => by simp [TNode.is_iri_node, TNode.is_prefixed_name] at h,
        fun _ => rfl⟩
    | iri s i => exact ⟨fun h => by simp [TNode.is_this_ref] at h,
        fun h => by simp [TNode.is_that_ref] at h,
        fun h => by simp [TNode.is_that_element_ref] at h,
        fun _ => rfl,
        fun h => by simp [TNode.is_blank_node] at h⟩
    | prefixed_name s i => exact ⟨fun h => by simp [TNode.is_this_ref] at h,
        fun h => by simp [TNode.is_that_ref] at h,
        fun h => by simp [TNode.is_that_element_ref] at h,
        fun _ => rfl,
        fun h => by simp [TNode.is_blank_node] at h⟩
    | valueN mv g s i =>
      refine ⟨?_, ?_, ?_, ?_, ?_⟩
      · intro h
        have hmv : mv = "$this" := by simpa [TNode.is_this_ref] using h
        subst hmv; rfl
      · intro h
        have hmv : mv = "$that" := by simpa [TNode.is_that_ref] using h
        subst hmv; rfl
      · intro h
        have hmv : mv ∈ THAT_ELEMENT_NAMES := by
          simpa [TNode.is_that_element_ref, List.contains, List.elem_iff] using h
        simp only [THAT_ELEMENT_NAMES, List.mem_cons, List.mem_singleton] at hmv
        rcases hmv with rfl | rfl | hmv
        · rfl
        · rfl
        · simp at hmv; subst hmv; rfl
      · intro h
        simp [TNode.is_iri_node, TNode.is_prefixed_name] at h
      · intro h
        simp [TNode.is_blank_node] at h

/-- Claim C2, witness: the sortedness of the group lists at the concrete
two-triple input, and the weight of the concrete `$this` node. -/
theorem C2_triple_ordering_witness :
    (process_triples [tBlankExample, tThisExample]).1.Pairwise
      (fun a b => triple_value a ≤ triple_value b) ∧
    node_value (.valueN "$this" false false 1) = 1 :=
  ⟨(C2_triple_ordering.1 [tBlankExample, tThisExample]).1,
   (C2_triple_ordering.2.1 (.valueN "$this" false false 1)).1 rfl⟩

/-- Claim C10: the per-group sort is stable — filtering the sorted list, or
either group list of `process_triples`, by any fixed weight value
yields the triples in exactly their original declaration order. -/
theorem C10_sort_stability (ts : List TripleE) (w : Nat) :
    (sortTriples ts).filter (fun t => triple_value t == w) =
      ts.filter (fun t => triple_value t == w) ∧
    (process_triples ts).1.filter (fun t => triple_value t == w) =
      (ts.filter (fun t => !t.has_that_element_ref)).filter
        (fun t => triple_value t == w) ∧
    (process_triples ts).2.filter (fun t => triple_value t == w) =
      (ts.filter (fun t => t.has_that_element_ref)).filter
        (fun t => triple_value t == w) := by
  have hp : ∀ y z : TripleE, (triple_value y == w) = true →
      (triple_value z == w) = true → triple_value y = triple_value z := by
    intro y z hy hz
    simp only [beq_iff_eq] at hy hz
    omega
  have hp1 : ∀ y z : TripleE,
      ((triple_value y == w) && !y.has_that_element_ref) = true →
      ((triple_value z == w) && !z.has_that_element_ref) = true →
      triple_value y = triple_value z := by
    intro y z hy hz
    simp only [Bool.and_eq_true, beq_iff_eq] at hy hz
    omega
  have hp2 : ∀ y z : TripleE,
      ((triple_value y == w) && y.has_that_element_ref) = true →
      ((triple_value z == w) && z.has_that_element_ref) = true →
      triple_value y = triple_value z := by
    intro y z hy hz
    simp only [Bool.and_eq_true, beq_iff_eq] at hy hz
    omega
  refine ⟨filter_sortTriples _ hp ts, ?_, ?_⟩
  · rw [process_triples_eq_filters]
    simp only [List.filter_filter]
    exact filter_sortTriples _ hp1 ts
  · rw [process_triples_eq_filters]
    simp only [List.filter_filter]
    exact filter_sortTriples _ hp2 ts

/-- A list is a `isPrefixOf`-prefix of itself followed by anything. -/
theorem isPrefixOf_append_self (l r : Str) : l.isPrefixOf (l ++ r) = true :=
  List.isPrefixOf_iff_prefix.mpr ⟨r, rfl⟩

/-- Dropping the non-dash run of a dash-free list reaches the dash. -/
theorem dropWhile_no_dash (v : Str) :
    ∀ u : Str, '-' ∉ u →
      List.dropWhile (fun c => !(c == '-')) (u ++ '-' :: v) = '-' :: v := by
  intro u
  induction u with
  | nil => intro _; simp [List.dropWhile]
  | cons c u ih =>
    intro hu
    have hc : ¬ c = '-' := fun h => hu (h ▸ List.mem_cons_self c u)
    have hcb : (!(c == '-')) = true := by simp [hc]
    simp only [List.cons_append, List.dropWhile_cons, hcb, if_true]
    exact ih (fun h => hu (List.mem_cons_of_mem c h))

/-- Stripping from the last dash of `X ++ "-<suffix>"` recovers `X`
when the suffix holds no dash (`rfind('-')` finds the separator). -/
theorem beforeLastDash_append (X t : Str) (ht : '-' ∉ t) :
    beforeLastDash (X ++ '-' :: t) = X := by
  unfold beforeLastDash
  rw [if_pos (by simp)]
  rw [List.reverse_append, List.reverse_cons, List.append_assoc, List.singleton_append]
  rw [dropWhile_no_dash X.reverse t.reverse (by simpa using ht)]
  simp

/-- Claim C5: a begin marker for name `X` followed by value markers carrying
`a` then `b` and a matching end marker decodes to exactly one tuple
`(a, b)` under key `X` and nothing under any other key; when the end
marker is missing, the accumulated values are still committed as one
tuple under `X` at list end.  (The children lists are in attachment
order; the decoder visits them reversed, i.e. in authoring order
begin, value `a`, value `b`, end.) -/
theorem C5_marker_decoder (X a b : Str) :
    (∀ k, get_annotations_from_cursor
        [.annotate (paramEndMark ++ ['0']),
         .annotate (paramValueMark ++ '0' :: ':' :: b),
         .annotate (paramValueMark ++ '0' :: ':' :: a),
         .annotate (paramBeginMark ++ (X ++ '-' :: ['0']))] k =
       if k = X then [.tup [a, b]] else []) ∧
    (∀ k, get_annotations_from_cursor
        [.annotate (paramValueMark ++ '0' :: ':' :: b),
         .annotate (paramValueMark ++ '0' :: ':' :: a),
         .annotate (paramBeginMark ++ (X ++ '-' :: ['0']))] k =
       if k = X then [.tup [a, b]] else []) := by
  have hbegin : paramBeginMark.isPrefixOf (paramBeginMark ++ (X ++ '-' :: ['0'])) = true :=
    isPrefixOf_append_self _ _
  have hname : beforeLastDash ((paramBeginMark ++ (X ++ '-' :: ['0'])).drop
      paramBeginMark.length) = X := by
    rw [List.drop_left]
    exact beforeLastDash_append X ['0'] (by decide)
  have hva : paramEndMark.isPrefixOf (paramValueMark ++ '0' :: ':' :: a) = false := rfl
  have hvb : paramEndMark.isPrefixOf (paramValueMark ++ '0' :: ':' :: b) = false := rfl
  have hva' : paramValueMark.isPrefixOf (paramValueMark ++ '0' :: ':' :: a) = true :=
    isPrefixOf_append_self _ _
  have hvb' : paramValueMark.isPrefixOf (paramValueMark ++ '0' :: ':' :: b) = true :=
    isPrefixOf_append_self _ _
  have hda : (paramValueMark ++ '0' :: ':' :: a).drop paramValueMark.length = '0' :: ':' :: a :=
    List.drop_left _ _
  have hdb : (paramValueMark ++ '0' :: ':' :: b).drop paramValueMark.length = '0' :: ':' :: b :=
    List.drop_left _ _
  have hfa : afterFirstColon ('0' :: ':' :: a) = a := rfl
  have hfb : afterFirstColon ('0' :: ':' :: b) = b := rfl
  have hend : paramEndMark.isPrefixOf (paramEndMark ++ ['0']) = true :=
    isPrefixOf_append_self _ _
  constructor
  · intro k
    simp only [get_annotations_from_cursor, List.reverse_cons, List.reverse_nil,
      List.nil_append, List.cons_append, List.foldl_cons, List.foldl_nil,
      markerStep, hbegin, hname, hva, hvb, hva', hvb', hda, hdb, hfa, hfb, hend,
      if_true, Bool.false_eq_true, if_false, annoAppend, emptyAnnoResult]
  · intro k
    simp only [get_annotations_from_cursor, List.reverse_cons, List.reverse_nil,
      List.nil_append, List.cons_append, List.foldl_cons, List.foldl_nil,
      markerStep, hbegin, hname, hva, hvb, hva', hvb', hda, hdb, hfa, hfb,
      if_true, Bool.false_eq_true, if_false, annoAppend, emptyAnnoResult]

/-- Definitional unfolding of `propagate_anno` at zero fuel. -/
theorem propagate_anno_zero (subs : Nat → List Nat) (c : Nat)
    (av : Option (List String)) (st : UidState) :
    propagate_anno subs 0 c av st = none := rfl

/-- Definitional unfolding of `propagate_anno` at positive fuel. -/
theorem propagate_anno_succ (subs : Nat → List Nat) (fuel c : Nat)
    (av : Option (List String)) (st : UidState) :
    propagate_anno subs (fuel + 1) c av st =
      match st c with
      | some v =>
        if v.isEmpty then some st
        else propagate_list_with (fun s st => propagate_anno subs fuel s (some v) st)
          (subs c) st
      | none =>
        match av with
        | none => some st
        | some vs =>
          if vs.isEmpty then some st
          else propagate_list_with (fun s st => propagate_anno subs fuel s (some vs) st)
            (subs c) (fun k => if k = c then some vs else st k) := rfl

/-- The subclass loop preserves every property of single steps that
preserves existing entries. -/
theorem propagate_list_with_preserve (f : Nat → UidState → Option UidState)
    (hf : ∀ s st st', f s st = some st' → ∀ k v, st k = some v → st' k = some v) :
    ∀ (l : List Nat) (st st' : UidState),
      propagate_list_with f l st = some st' →
      ∀ k v, st k = some v → st' k = some v := by
  intro l
  induction l with
  | nil =>
    intro st st' h k v hk
    simp only [propagate_list_with, Option.some.injEq] at h
    subst h
    exact hk
  | cons s rest ih =>
    intro st st' h k v hk
    unfold propagate_list_with at h
    cases hfs : f s st with
    | none => rw [hfs] at h; cases h
    | some st1 =>
      rw [hfs] at h
      exact ih st1 st' h k v (hf s st st1 hfs k v hk)

/-- A state entry changed by the subclass loop is blamed on one of the
visited subclasses. -/
theorem propagate_list_with_reach (f : Nat → UidState → Option UidState)
    (P : Nat → Nat → Prop)
    (hf : ∀ s st st', f s st = some st' → ∀ k, st' k ≠ st k → P s k) :
    ∀ (l : List Nat) (st st' : UidState),
      propagate_list_with f l st = some st' →
      ∀ k, st' k ≠ st k → ∃ s ∈ l, P s k := by
  intro l
  induction l with
  | nil =>
    intro st st' h k hk
    simp only [propagate_list_with, Option.some.injEq] at h
    subst h
    exact absurd rfl hk
  | cons s rest ih =>
    intro st st' h k hk
    unfold propagate_list_with at h
    cases hfs : f s st with
    | none => rw [hfs] at h; cases h
    | some st1 =>
      rw [hfs] at h
      by_cases h1 : st' k = st1 k
      · have : st1 k ≠ st k := by rw [← h1]; exact hk
        exact ⟨s, List.mem_cons_self s rest, hf s st st1 hfs k this⟩
      · obtain ⟨s', hs', hp⟩ := ih st1 st' h k h1
        exact ⟨s', List.mem_cons_of_mem s hs', hp⟩

/-- Propagation never overwrites an existing annotation entry: first
assignment wins. -/
theorem propagate_anno_preserve (subs : Nat → List Nat) :
    ∀ (fuel c : Nat) (av : Option (List String)) (st st' : UidState),
      propagate_anno subs fuel c av st = some st' →
      ∀ k v, st k = some v → st' k = some v := by
  intro fuel
  induction fuel with
  | zero => intro c av st st' h; cases h
  | succ fuel ih =>
    intro c av st st' h k v hk
    rw [propagate_anno_succ] at h
    cases hc : st c with
    | some w =>
      simp only [hc] at h
      by_cases hw : w.isEmpty
      · simp only [hw, if_true, Option.some.injEq] at h
        subst h
        exact hk
      · simp only [hw, Bool.false_eq_true, if_false] at h
        exact propagate_list_with_preserve _ (fun s st st' hs => ih s (some w) st st' hs)
          (subs c) st st' h k v hk
    | none =>
      simp only [hc] at h
      cases av with
      | none =>
        simp only [Option.some.injEq] at h
        subst h
        exact hk
      | some vs =>
        by_cases hw : vs.isEmpty
        · simp only [hw, if_true, Option.some.injEq] at h
          subst h
          exact hk
        · simp only [hw, Bool.false_eq_true, if_false] at h
          have hne : k ≠ c := fun he => by rw [he, hc] at hk; cases hk
          have hk1 : (fun k' => if k' = c then some vs else st k') k = some v := by
            simp [hne, hk]
          exact propagate_list_with_preserve _ (fun s st st' hs => ih s (some vs) st st' hs)
            (subs c) _ st' h k v hk1

/-- A state entry changed by propagation belongs to a class reachable
downward from the start class along `annotated_sub_classes` edges. -/
theorem propagate_anno_reach (subs : Nat → List Nat) :
    ∀ (fuel c : Nat) (av : Option (List String)) (st st' : UidState),
      propagate_anno subs fuel c av st = some st' →
      ∀ k, st' k ≠ st k → SubReach subs c k := by
  intro fuel
  induction fuel with
  | zero => intro c av st st' h; cases h
  | succ fuel ih =>
    intro c av st st' h k hk
    rw [propagate_anno_succ] at h
    cases hc : st c with
    | some w =>
      simp only [hc] at h
      by_cases hw : w.isEmpty
      · simp only [hw, if_true, Option.some.injEq] at h
        subst h
        exact absurd rfl hk
      · simp only [hw, Bool.false_eq_true, if_false] at h
        obtain ⟨s, hs, hr⟩ := propagate_list_with_reach _ (SubReach subs)
          (fun s st st' hs => ih s (some w) st st' hs) (subs c) st st' h k hk
        exact SubReach.head hs hr
    | none =>
      simp only [hc] at h
      cases av with
      | none =>
        simp only [Option.some.injEq] at h
        subst h
        exact absurd rfl hk
      | some vs =>
        by_cases hw : vs.isEmpty
        · simp only [hw, if_true, Option.some.injEq] at h
          subst h
          exact absurd rfl hk
        · simp only [hw, Bool.false_eq_true, if_false] at h
          by_cases hkc : k = c
          · subst hkc
            exact SubReach.refl k
          · have hst1 : (fun k' => if k' = c then some vs else st k') k = st k := by
              simp [hkc]
            by_cases h1 : st' k = st k
            · exact absurd h1 hk
            · obtain ⟨s, hs, hr⟩ := propagate_list_with_reach _ (SubReach subs)
                (fun s st st' hs => ih s (some vs) st st' hs) (subs c) _ st' h k
                (by rw [if_neg hkc]; exact h1)
              exact SubReach.head hs hr

/-- Claim C4: the uid-accessor directive propagates only downward along
annotated sub-class edges and only into classes lacking their own
entry (an existing entry is never overwritten); in the concrete
scenario, base `B` declaring uid-accessor `getId` with annotated
subclass `D` declaring nothing leaves `D` with uid-accessor `getId`,
and the path-processing loops then give `D` the path type
`RELATIVE_TO_BASE_PATH`. -/
theorem C4_uid_propagation :
    (∀ (subs : Nat → List Nat) (fuel c : Nat) (av : Option (List String))
        (st st' : UidState),
       propagate_anno subs fuel c av st = some st' →
       (∀ k v, st k = some v → st' k = some v) ∧
       (∀ k, st' k ≠ st k → st k = none ∧ SubReach subs c k)) ∧
    (propagate_uid_all subsBD 3 [0, 1] uidStateB).map (fun st => (st 0, st 1)) =
      some (some ["getId"], some ["getId"]) ∧
    process_cls_path [] [] (some ["getId"]) =
      some (.RELATIVE_TO_BASE_PATH, some ["getId"], (none, none, "\"\"".toList)) := by
  refine ⟨?_, rfl, rfl⟩
  intro subs fuel c av st st' h
  refine ⟨propagate_anno_preserve subs fuel c av st st' h, ?_⟩
  intro k hk
  refine ⟨?_, propagate_anno_reach subs fuel c av st st' h k hk⟩
  cases hsk : st k with
  | none => rfl
  | some v =>
    have := propagate_anno_preserve subs fuel c av st st' h k v hsk
    rw [this, hsk] at hk
    exact absurd rfl hk

/-- Claim C4, witness: the general part instantiated on the concrete
scenario — `B`'s own entry is preserved by the propagation pass. -/
theorem C4_uid_propagation_witness :
    ∃ st', propagate_anno subsBD 3 0 none uidStateB = some st' ∧
      st' 0 = some ["getId"] := by
  refine ⟨fun k => if k = 1 then some ["getId"] else uidStateB k, rfl, ?_⟩
  exact (C4_uid_propagation.1 subsBD 3 0 none uidStateB _ rfl).1 0 ["getId"] rfl

/-- `OrderedSet.add` membership. -/
theorem addIdx_mem (s : List Nat) (i j : Nat) : j ∈ addIdx s i ↔ j ∈ s ∨ j = i := by
  unfold addIdx
  split
  · rename_i hi
    constructor
    · exact Or.inl
    · rintro (h | rfl)
      · exact h
      · exact hi
  · simp

/-- Searching the mapped name list equals searching the functions. -/
theorem any_name_map (l : List FuncE) (m : String) :
    (l.map (fun f => f.name)).any (fun n => n = m) = l.any (fun f => f.name = m) := by
  induction l with
  | nil => rfl
  | cons f l ih => simp [ih]

/-- `has_function_named` depends only on the method-name list. -/
theorem hasFunctionNamed_eq (c : ClassE) (m : String) :
    c.hasFunctionNamed m =
      (c.functionsOf.map (fun f => f.name)).any (fun n => n = m) := by
  cases c
  simp only [ClassE.hasFunctionNamed, ClassE.functionsOf]
  rw [any_name_map]

/-- `add_annotation` on a class leaves its functions untouched. -/
theorem addAnno_functionsOf (c : ClassE) (k : String) (v : AVal) :
    (c.addAnno k v).functionsOf = c.functionsOf := by
  cases c; rfl

/-- Annotating a field leaves the functions untouched. -/
theorem annotateFirstField_functionsOf (c : ClassE) (n k : String) (v : AVal) :
    (c.annotateFirstField n k v).1.functionsOf = c.functionsOf := by
  cases c
  unfold ClassE.annotateFirstField
  split <;> rfl

/-- Annotating members preserves every function's name. -/
theorem annotateMembers_fnNames (c : ClassE) (n k : String) (v : AVal) :
    (c.annotateMembers n k v).functionsOf.map (fun f => f.name) =
      c.functionsOf.map (fun f => f.name) := by
  cases c
  unfold ClassE.annotateMembers
  simp only [ClassE.functionsOf, List.map_map]
  apply List.map_congr_left
  intro f _
  simp only [Function.comp]
  split <;> rfl

/-- The `arvida-object-semantic` parameter loop never touches the
functions. -/
theorem foldl_addAnno_functionsOf (l : List AnnotationParam) :
    ∀ c : ClassE,
      (l.foldl (fun acc p => acc.addAnno "semantic" (.sval p.pStr)) c).functionsOf =
        c.functionsOf := by
  induction l with
  | nil => intro c; rfl
  | cons p l ih =>
    intro c
    simp only [List.foldl_cons]
    rw [ih, addAnno_functionsOf]

/-- Binding one invocation onto a class preserves the method-name
list. -/
theorem applyClassAnno_fnNames (c : ClassE) (ca : AnnoInv) (c' : ClassE)
    (h : applyClassAnno c ca = some c') :
    c'.functionsOf.map (fun f => f.name) = c.functionsOf.map (fun f => f.name) := by
  unfold applyClassAnno at h
  split at h <;>
    simp only [Option.bind_eq_bind, Option.bind_eq_some, Option.some.injEq] at h
  case _ =>
    obtain rfl := h
    rw [foldl_addAnno_functionsOf]
  case _ =>
    obtain ⟨p0, _, p1, _, rfl⟩ := h
    rw [annotateFirstField_functionsOf]
  case _ =>
    obtain ⟨p0, _, p1, _, rfl⟩ := h
    rw [annotateMembers_fnNames]
  case _ =>
    obtain ⟨p0, _, p1, _, p2, _, rfl⟩ := h
    rw [annotateMembers_fnNames]
  case _ =>
    obtain ⟨p0, _, p1, _, p2, _, rfl⟩ := h
    rw [addAnno_functionsOf]
  case _ =>
    obtain ⟨p0, _, rfl⟩ := h
    rw [addAnno_functionsOf]
  case _ =>
    obtain ⟨p0, _, rfl⟩ := h
    rw [addAnno_functionsOf]
  case _ =>
    obtain ⟨p0, _, p1, _, p2, _, p3, _, rfl⟩ := h
    rw [annotateMembers_fnNames]
  case _ =>
    obtain ⟨p0, _, p1, _, rfl⟩ := h
    rw [annotateMembers_fnNames]
  case _ =>
    obtain ⟨p0, _, p1, _, rfl⟩ := h
    rw [annotateMembers_fnNames]
  case _ =>
    obtain ⟨p0, _, p1, _, rfl⟩ := h
    rw [annotateMembers_fnNames]
  case _ =>
    obtain rfl := h
    rfl

/-- Binding all invocations of one item preserves the method-name
list. -/
theorem foldlM_applyClassAnno_fnNames (l : List AnnoInv) :
    ∀ c c' : ClassE, l.foldlM applyClassAnno c = some c' →
      c'.functionsOf.map (fun f => f.name) = c.functionsOf.map (fun f => f.name) := by
  induction l with
  | nil =>
    intro c c' h
    simp only [List.foldlM_nil, Option.pure_def, Option.some.injEq] at h
    subst h; rfl
  | cons ca l ih =>
    intro c c' h
    simp only [List.foldlM_cons, Option.bind_eq_bind, Option.bind_eq_some] at h
    obtain ⟨c1, h1, h2⟩ := h
    rw [ih c1 c' h2, applyClassAnno_fnNames c ca c1 h1]

/-- The shared tail of `itemStep` after the global-annotation
collection: the name lookup, set insertion and invocation binding. -/
theorem itemStep_core (nameMap : String → Option Nat) (st : ItemLoopState)
    (fullName : String) (annosL : List AnnoInv)
    (globals' : List (String × String)) (st' : ItemLoopState)
    (h : (match nameMap fullName with
          | none => some { st with globals := globals' }
          | some i =>
            (modClassAt st.classes i (fun c => annosL.foldlM applyClassAnno c)).bind
              (fun classes' => some { classes := classes', aset := addIdx st.aset i,
                                      globals := globals' })) = some st') :
    (∀ j, j ∈ st'.aset ↔ j ∈ st.aset ∨ nameMap fullName = some j) ∧
    (∀ j, (st'.classes.get? j).map (fun c => c.functionsOf.map (fun f => f.name)) =
          (st.classes.get? j).map (fun c => c.functionsOf.map (fun f => f.name))) := by
  cases hn : nameMap fullName with
  | none =>
    rw [hn] at h
    simp only [Option.some.injEq] at h
    subst h
    refine ⟨fun j => ?_, fun j => rfl⟩
    simp
  | some i =>
    rw [hn] at h
    simp only [Option.bind_eq_some, Option.some.injEq] at h
    obtain ⟨classes', hm, h⟩ := h
    subst h
    unfold modClassAt at hm
    cases hc : st.classes.get? i with
    | none => rw [hc] at hm; cases hm
    | some c =>
      rw [hc] at hm
      simp only [Option.map_eq_some'] at hm
      obtain ⟨c', hfold, rfl⟩ := hm
      constructor
      · intro j
        rw [addIdx_mem]
        simp only [Option.some.injEq]
        tauto
      · intro j
        by_cases hij : i = j
        · subst hij
          have hlt : i < st.classes.length := (List.get?_eq_some.mp hc).1
          have hgi : st.classes[i]? = some c := by
            rw [← List.get?_eq_getElem?]; exact hc
          simp only [List.get?_eq_getElem?, List.getElem?_set_self hlt, hgi,
            Option.map_some']
          rw [foldlM_applyClassAnno_fnNames _ _ _ hfold]
        · simp only [List.get?_eq_getElem?, List.getElem?_set_ne hij]

/-- One annotation item: the set gains exactly the resolved target, and
the method-name lists of all classes are unchanged. -/
theorem itemStep_props (nameMap : String → Option Nat) (st : ItemLoopState)
    (a : AnnotatedItem) (st' : ItemLoopState)
    (h : itemStep nameMap st a = some st') :
    (∀ j, j ∈ st'.aset ↔ j ∈ st.aset ∨ nameMap a.full_name = some j) ∧
    (∀ j, (st'.classes.get? j).map (fun c => c.functionsOf.map (fun f => f.name)) =
          (st.classes.get? j).map (fun c => c.functionsOf.map (fun f => f.name))) := by
  unfold itemStep at h
  cases hG : a.is_global with
  | true =>
    simp only [hG, eq_self_iff_true, if_true, Option.bind_eq_bind, Option.bind_eq_some] at h
    obtain ⟨globals', _, h⟩ := h
    exact itemStep_core nameMap st a.full_name a.annos globals' st' h
  | false =>
    simp only [hG, Bool.false_eq_true, if_false, Option.pure_def, Option.bind_eq_bind,
      Option.some_bind] at h
    exact itemStep_core nameMap st a.full_name a.annos st.globals st' h

/-- The full annotation-item loop: membership and method-name
invariance. -/
theorem itemLoop_props (nameMap : String → Option Nat) :
    ∀ (items : List AnnotatedItem) (st st' : ItemLoopState),
      items.foldlM (itemStep nameMap) st = some st' →
      (∀ j, j ∈ st'.aset ↔ j ∈ st.aset ∨ ∃ a ∈ items, nameMap a.full_name = some j) ∧
      (∀ j, (st'.classes.get? j).map (fun c => c.functionsOf.map (fun f => f.name)) =
            (st.classes.get? j).map (fun c => c.functionsOf.map (fun f => f.name))) := by
  intro items
  induction items with
  | nil =>
    intro st st' h
    simp only [List.foldlM_nil, Option.pure_def, Option.some.injEq] at h
    subst h
    simp
  | cons a items ih =>
    intro st st' h
    simp only [List.foldlM_cons, Option.bind_eq_bind, Option.bind_eq_some] at h
    obtain ⟨st1, h1, h2⟩ := h
    obtain ⟨hset1, hfn1⟩ := itemStep_props nameMap st a st1 h1
    obtain ⟨hset2, hfn2⟩ := ih st1 st' h2
    constructor
    · intro j
      rw [hset2 j, hset1 j]
      simp only [List.mem_cons]
      constructor
      · rintro ((hj | hj) | ⟨b, hb, hnb⟩)
        · exact Or.inl hj
        · exact Or.inr ⟨a, Or.inl rfl, hj⟩
        · exact Or.inr ⟨b, Or.inr hb, hnb⟩
      · rintro (hj | ⟨b, (rfl | hb), hnb⟩)
        · exact Or.inl (Or.inl hj)
        · exact Or.inl (Or.inr hnb)
        · exact Or.inr ⟨b, hb, hnb⟩
    · intro j
      rw [hfn2 j, hfn1 j]

/-- One class visited by the uid loop: the method-name lists are
unchanged, the length is unchanged, and the set gains the index iff
its class has a method of the given name. -/
theorem uidInnerStep_props (m : String) (acc : List ClassE × List Nat) (i : Nat) :
    (∀ j, ((uidInnerStep m acc i).1.get? j).map
        (fun c => c.functionsOf.map (fun f => f.name)) =
      (acc.1.get? j).map (fun c => c.functionsOf.map (fun f => f.name))) ∧
    (uidInnerStep m acc i).1.length = acc.1.length ∧
    (∀ j, j ∈ (uidInnerStep m acc i).2 ↔ j ∈ acc.2 ∨
      (j = i ∧ ∃ c, acc.1.get? i = some c ∧ c.hasFunctionNamed m = true)) := by
  unfold uidInnerStep
  cases hc : acc.1.get? i with
  | none =>
    refine ⟨fun j => rfl, rfl, fun j => ?_⟩
    simp
  | some c =>
    cases hb : c.hasFunctionNamed m with
    | true =>
      simp only [hb, eq_self_iff_true, if_true]
      have hlt : i < acc.1.length := (List.get?_eq_some.mp hc).1
      refine ⟨fun j => ?_, by simp, fun j => ?_⟩
      · by_cases hij : i = j
        · subst hij
          have hgi : acc.1[i]? = some c := by
            rw [← List.get?_eq_getElem?]; exact hc
          simp only [List.get?_eq_getElem?, List.getElem?_set_self hlt, hgi,
            Option.map_some']
          rw [addAnno_functionsOf]
        · simp only [List.get?_eq_getElem?, List.getElem?_set_ne hij]
      · rw [addIdx_mem]
        constructor
        · rintro (hj | rfl)
          · exact Or.inl hj
          · exact Or.inr ⟨rfl, c, rfl, hb⟩
        · rintro (hj | ⟨rfl, c', hc', hf'⟩)
          · exact Or.inl hj
          · exact Or.inr rfl
    | false =>
      dsimp only
      refine ⟨?_, ?_, ?_⟩
      · intro j
        rw [if_neg (by rw [hb]; exact Bool.false_ne_true)]
      · rw [if_neg (by rw [hb]; exact Bool.false_ne_true)]
      · intro j
        rw [if_neg (by rw [hb]; exact Bool.false_ne_true)]
        constructor
        · exact Or.inl
        · rintro (hj | ⟨rfl, c', hc', hf'⟩)
          · exact hj
          · cases hc'
            rw [hb] at hf'
            cases hf'

/-- Resolving a method name against an index, phrased through the
method-name lists (stable across annotation updates). -/
theorem fnN_hit_iff (cs : List ClassE) (j : Nat) (m : String) :
    (∃ c, cs.get? j = some c ∧ c.hasFunctionNamed m = true) ↔
    (∃ nms, (cs.get? j).map (fun c => c.functionsOf.map (fun f => f.name)) = some nms ∧
       nms.any (fun n => n = m) = true) := by
  constructor
  · rintro ⟨c, hc, hf⟩
    refine ⟨c.functionsOf.map (fun f => f.name), by rw [hc]; rfl, ?_⟩
    rw [← hasFunctionNamed_eq]
    exact hf
  · rintro ⟨nms, hmap, hany⟩
    cases hc : cs.get? j with
    | none => rw [hc] at hmap; cases hmap
    | some c =>
      rw [hc] at hmap
      simp only [Option.map_some', Option.some.injEq] at hmap
      subst hmap
      exact ⟨c, rfl, by rw [hasFunctionNamed_eq]; exact hany⟩

/-- The inner uid loop over a list of class indices. -/
theorem uidFold_props (m : String) :
    ∀ (idxs : List Nat) (acc : List ClassE × List Nat),
      (∀ j, ((idxs.foldl (uidInnerStep m) acc).1.get? j).map
          (fun c => c.functionsOf.map (fun f => f.name)) =
        (acc.1.get? j).map (fun c => c.functionsOf.map (fun f => f.name))) ∧
      (idxs.foldl (uidInnerStep m) acc).1.length = acc.1.length ∧
      (∀ j, j ∈ (idxs.foldl (uidInnerStep m) acc).2 ↔ j ∈ acc.2 ∨
        (j ∈ idxs ∧ ∃ c, acc.1.get? j = some c ∧ c.hasFunctionNamed m = true)) := by
  intro idxs
  induction idxs with
  | nil =>
    intro acc
    simp
  | cons i idxs ih =>
    intro acc
    simp only [List.foldl_cons]
    obtain ⟨hfn1, hlen1, hset1⟩ := uidInnerStep_props m acc i
    obtain ⟨hfn2, hlen2, hset2⟩ := ih (uidInnerStep m acc i)
    refine ⟨fun j => (hfn2 j).trans (hfn1 j), hlen2.trans hlen1, fun j => ?_⟩
    rw [hset2 j, hset1 j]
    have hhit : (∃ c, (uidInnerStep m acc i).1.get? j = some c ∧
        c.hasFunctionNamed m = true) ↔
        (∃ c, acc.1.get? j = some c ∧ c.hasFunctionNamed m = true) := by
      rw [fnN_hit_iff, fnN_hit_iff, hfn1 j]
    rw [hhit]
    simp only [List.mem_cons]
    constructor
    · rintro ((hj | ⟨rfl, hex⟩) | ⟨hj, hex⟩)
      · exact Or.inl hj
      · exact Or.inr ⟨Or.inl rfl, hex⟩
      · exact Or.inr ⟨Or.inr hj, hex⟩
    · rintro (hj | ⟨(rfl | hj), hex⟩)
      · exact Or.inl (Or.inl hj)
      · exact Or.inl (Or.inr ⟨rfl, hex⟩)
      · exact Or.inr ⟨hj, hex⟩

/-- One `uid-method` name resolved against every class: the set gains
exactly the classes defining a method of that name. -/
theorem uidStep_props (cs : List ClassE) (s : List Nat) (m : String) :
    (∀ j, ((uidStep (cs, s) m).1.get? j).map
        (fun c => c.functionsOf.map (fun f => f.name)) =
      (cs.get? j).map (fun c => c.functionsOf.map (fun f => f.name))) ∧
    (uidStep (cs, s) m).1.length = cs.length ∧
    (∀ j, j ∈ (uidStep (cs, s) m).2 ↔ j ∈ s ∨
      ∃ c, cs.get? j = some c ∧ c.hasFunctionNamed m = true) := by
  obtain ⟨hfn, hlen, hset⟩ := uidFold_props m (List.range cs.length) (cs, s)
  refine ⟨hfn, hlen, fun j => ?_⟩
  rw [uidStep, hset j]
  constructor
  · rintro (hj | ⟨_, hex⟩)
    · exact Or.inl hj
    · exact Or.inr hex
  · rintro (hj | hex)
    · exact Or.inl hj
    · refine Or.inr ⟨?_, hex⟩
      obtain ⟨c, hc, _⟩ := hex
      exact List.mem_range.mpr (List.get?_eq_some.mp hc).1

/-- The outer uid loop over all globally declared uid-method names. -/
theorem uidNamesFold_props :
    ∀ (names : List String) (cs : List ClassE) (s : List Nat),
      (∀ j, ((names.foldl uidStep (cs, s)).1.get? j).map
          (fun c => c.functionsOf.map (fun f => f.name)) =
        (cs.get? j).map (fun c => c.functionsOf.map (fun f => f.name))) ∧
      (∀ j, j ∈ (names.foldl uidStep (cs, s)).2 ↔ j ∈ s ∨
        ∃ m ∈ names, ∃ c, cs.get? j = some c ∧ c.hasFunctionNamed m = true) := by
  intro names
  induction names with
  | nil =>
    intro cs s
    simp
  | cons m names ih =>
    intro cs s
    simp only [List.foldl_cons]
    obtain ⟨hfn1, hlen1, hset1⟩ := uidStep_props cs s m
    obtain ⟨hfn2, hset2⟩ := ih (uidStep (cs, s) m).1 (uidStep (cs, s) m).2
    refine ⟨fun j => ?_, fun j => ?_⟩
    · rw [← Prod.mk.eta (p := uidStep (cs, s) m)] at *
      exact (hfn2 j).trans (hfn1 j)
    · rw [← Prod.mk.eta (p := uidStep (cs, s) m), hset2 j, hset1 j]
      have hhit : ∀ m', (∃ c, (uidStep (cs, s) m).1.get? j = some c ∧
          c.hasFunctionNamed m' = true) ↔
          (∃ c, cs.get? j = some c ∧ c.hasFunctionNamed m' = true) := by
        intro m'
        rw [fnN_hit_iff, fnN_hit_iff, hfn1 j]
      constructor
      · rintro ((hj | hex) | ⟨m', hm', hex⟩)
        · exact Or.inl hj
        · exact Or.inr ⟨m, List.mem_cons_self m names, hex⟩
        · exact Or.inr ⟨m', List.mem_cons_of_mem m hm', (hhit m').mp hex⟩
      · rintro (hj | ⟨m', hm', hex⟩)
        · exact Or.inl (Or.inl hj)
        · rcases List.mem_cons.mp hm' with rfl | hm'
          · exact Or.inl (Or.inr hex)
          · exact Or.inr ⟨m', hm', (hhit m').mpr hex⟩

/-- Membership in the initial annotated-class set (classes carrying
their own or a direct member's annotation). -/
theorem set1_mem (classes : List ClassE) (i : Nat) :
    i ∈ (List.range classes.length).filter
        (fun i => ((classes.get? i).map ClassE.has_annos_rec).getD false) ↔
    ∃ c, classes.get? i = some c ∧ c.has_annos_rec = true := by
  rw [List.mem_filter, List.mem_range]
  constructor
  · rintro ⟨hlt, hp⟩
    cases hc : classes.get? i with
    | none => rw [hc] at hp; cases hp
    | some c =>
      rw [hc] at hp
      exact ⟨c, rfl, by simpa using hp⟩
  · rintro ⟨c, hc, hh⟩
    exact ⟨(List.get?_eq_some.mp hc).1, by simp [← List.get?_eq_getElem?, hc, hh]⟩

/-- A name is among the collected uid-method names iff the
corresponding pair was collected globally. -/
theorem uid_names_mem (g : List (String × String)) (m : String) :
    m ∈ (g.filter (fun p => p.1 = "uid-method")).map (·.2) ↔ ("uid-method", m) ∈ g := by
  rw [List.mem_map]
  constructor
  · rintro ⟨⟨k, v⟩, hmem, rfl⟩
    rw [List.mem_filter] at hmem
    obtain ⟨hg, hk⟩ := hmem
    simp only [decide_eq_true_eq] at hk
    subst hk
    exact hg
  · intro hg
    exact ⟨("uid-method", m), List.mem_filter.mpr ⟨hg, by simp⟩, rfl⟩

/-- Claim C9, counterexample: after `build_index` on the counterexample
environment, class `::C` is in the annotated-class set, while the
spec's membership characterization — the class or a member carries an
annotation, or a uid-accessor resolved — evaluates to false (the only
annotation item targeting `::C` named a missing field and was silently
dropped). -/
theorem C9_counterexample :
    (build_index ceEnv).map (fun ix => (ix.annotated_classes, spec_annotated_class ix 0)) =
      some ([0], false) := by
  rfl

/-- Claim C9, amended: after `build_index`, a class index is in the
annotated-class set iff the class carried at least one own or direct
member annotation before indexing, or some decoded annotation item's
target name resolves to the class in the name map (even when every
invocation of that item is dropped), or some globally collected
uid-method name matches one of the class's methods. -/
theorem C9_annotated_set_amended (env : EnvE) (ix : EnvIndex)
    (h : build_index env = some ix) (i : Nat) :
    i ∈ ix.annotated_classes ↔
      (∃ c, env.classes.get? i = some c ∧ c.has_annos_rec = true) ∨
      (∃ a ∈ env.annoItems, nameIdx env.classes a.full_name = some i) ∨
      (∃ m, ("uid-method", m) ∈ ix.global_annos ∧
         ∃ c, env.classes.get? i = some c ∧ c.hasFunctionNamed m = true) := by
  unfold build_index at h
  simp only [Option.bind_eq_bind, Option.bind_eq_some] at h
  obtain ⟨st1, hfold, h⟩ := h
  cases hu : ((st1.globals.filter (fun p => p.1 = "uid-method")).map (·.2)).foldl uidStep
      (st1.classes, st1.aset) with
  | mk classes2 set2 =>
    rw [hu] at h
    cases hbs : baseSubPairs classes2 (nameIdx env.classes) set2 with
    | mk bp sp =>
      rw [hbs] at h
      simp only [Option.some.injEq] at h
      subst h
      obtain ⟨hiset, hifn⟩ := itemLoop_props (nameIdx env.classes) env.annoItems
        { classes := env.classes,
          aset := (List.range env.classes.length).filter
            (fun i => ((env.classes.get? i).map ClassE.has_annos_rec).getD false),
          globals := [] } st1 hfold
      dsimp only at hiset hifn
      obtain ⟨hufn, huset⟩ := uidNamesFold_props
        ((st1.globals.filter (fun p => p.1 = "uid-method")).map (·.2))
        st1.classes st1.aset
      rw [hu] at huset
      simp only at huset
      show i ∈ set2 ↔ _
      rw [huset i, hiset i, set1_mem]
      simp only at hiset huset ⊢
      constructor
      · rintro ((h1 | h2) | ⟨m, hm, hex⟩)
        · exact Or.inl h1
        · exact Or.inr (Or.inl h2)
        · refine Or.inr (Or.inr ⟨m, (uid_names_mem st1.globals m).mp hm, ?_⟩)
          rw [fnN_hit_iff, hifn i, ← fnN_hit_iff] at hex
          exact hex
      · rintro (h1 | h2 | ⟨m, hm, hex⟩)
        · exact Or.inl (Or.inl h1)
        · exact Or.inl (Or.inr h2)
        · refine Or.inr ⟨m, (uid_names_mem st1.globals m).mpr hm, ?_⟩
          rw [fnN_hit_iff, ← hifn i, ← fnN_hit_iff] at hex
          exact hex

/-- Claim C9, witness: the amended characterization applied to the concrete
counterexample environment — `::C` is in the set exactly because it is
the target of an annotation item. -/
theorem C9_annotated_set_amended_witness :
    ∃ ix, build_index ceEnv = some ix ∧ (0 ∈ ix.annotated_classes ↔
      (∃ c, ceEnv.classes.get? 0 = some c ∧ c.has_annos_rec = true) ∨
      (∃ a ∈ ceEnv.annoItems, nameIdx ceEnv.classes a.full_name = some 0) ∨
      (∃ m, ("uid-method", m) ∈ ix.global_annos ∧
         ∃ c, ceEnv.classes.get? 0 = some c ∧ c.hasFunctionNamed m = true)) := by
  cases hix : build_index ceEnv with
  | none =>
    have : (build_index ceEnv).isSome = true := by rfl
    rw [hix] at this
    cases this
  | some ix =>
    exact ⟨ix, rfl, C9_annotated_set_amended ceEnv ix hix 0⟩
